import Mathlib

/-!
Verification development for the Vocalis flows editor.

The canonical data shapes (`lib/schema/flow.schema.ts`, documented in
`docs/SCHEMA.md`) are embedded as Lean structures.  Code that is present in
the sources (the decision-node synthesizer hook, the toolbar export gates,
the canvas drag write-back, node duplication, node rename wiring, decision
creation in the inspector) is translated directly.  Library modules that are
only referenced by the sources (validator, adapters, edge deriver, python
generator, undo manager, id utilities) are modelled from the specification;
each such definition carries a doc comment saying so.
-/

namespace VocalisFlows

/-- 2-D canvas position.  Coordinates are embedded as integers; every
operation under study only copies or offsets them by integer constants. -/
structure Position where
  x : Int
  y : Int
deriving DecidableEq, Repr

/-- Message role enum of the schema (`system | user | assistant`). -/
inductive MessageRole
  | system
  | user
  | assistant
deriving DecidableEq, Repr

/-- `MessageJson` of `lib/schema/flow.schema.ts`. -/
structure MessageJson where
  role : MessageRole
  content : String
deriving DecidableEq, Repr

/-- `ActionJson`: `{ type, handler?, text? }`. -/
structure ActionJson where
  type : String
  handler : Option String
  text : Option String
deriving DecidableEq, Repr

/-- Context-accumulation strategy enum. -/
inductive ContextStrategy
  | APPEND
  | RESET
  | RESET_WITH_SUMMARY
deriving DecidableEq, Repr

/-- `ContextStrategyConfigJson`: `{ strategy, summary_prompt? }`. -/
structure ContextStrategyConfigJson where
  strategy : ContextStrategy
  summary_prompt : Option String
deriving DecidableEq, Repr

/-- A value allowed in a property `enum` list (`string | number`). -/
inductive EnumValue
  | str (s : String)
  | num (n : Int)
deriving DecidableEq, Repr

/-- `FunctionPropertyJson`: JSON-schema-like parameter description. -/
structure FunctionPropertyJson where
  type : String
  description : Option String
  enumVals : Option (List EnumValue)
  minimum : Option Int
  maximum : Option Int
  pattern : Option String
deriving DecidableEq, Repr

/-- Decision condition operator enum
(`< | <= | == | >= | > | != | not | in | "not in"`). -/
inductive CondOp
  | lt
  | le
  | eq
  | ge
  | gt
  | ne
  | notOp
  | inOp
  | notInOp
deriving DecidableEq, Repr

/-- `DecisionConditionJson`: `{ operator, value, next_node_id }`. -/
structure DecisionConditionJson where
  operator : CondOp
  value : String
  next_node_id : String
deriving DecidableEq, Repr

/-- `DecisionJson`:
`{ action, conditions[], default_next_node_id, decision_node_position? }`. -/
structure DecisionJson where
  action : String
  conditions : List DecisionConditionJson
  default_next_node_id : String
  decision_node_position : Option Position
deriving DecidableEq, Repr

/-- `FlowFunctionJson`: a callable function attached to a node, with routing
metadata (`next_node_id?` or `decision?`). -/
structure FlowFunctionJson where
  name : String
  description : String
  properties : Option (List (String × FunctionPropertyJson))
  required : Option (List String)
  next_node_id : Option String
  decision : Option DecisionJson
deriving DecidableEq, Repr

/-- `GlobalFunctionJson`: a node function minus the routing fields. -/
structure GlobalFunctionJson where
  name : String
  description : String
  properties : Option (List (String × FunctionPropertyJson))
  required : Option (List String)
deriving DecidableEq, Repr

/-- `meta` block of a flow document. -/
structure MetaJson where
  name : String
  version : Option String
  description : Option String
deriving DecidableEq, Repr

/-- Node type enum of the presentation graph.  The document schema allows
`initial | node | end` (embedded as `endNode`); the presentation graph adds
the synthetic `decision` kind. -/
inductive NodeType
  | initial
  | node
  | endNode
  | decision
deriving DecidableEq, Repr

/-- Modelled from the spec: `lib/utils/decisionNodes.ts` is absent from the
sources.  In the running system every node id is a string and a synthetic
decision-node id is "a deterministic composite of `(sourceNodeId,
functionName)`" that "maps to exactly one `(node, function)` pair" (§3).
The composite is embedded as a dedicated constructor so that this exact
traceability is part of the data model. -/
inductive PNodeId
  | plain (s : String)
  | synth (src : PNodeId) (functionName : String)
deriving DecidableEq, Repr

/-- String rendering of a node id, used only inside validator messages
(mirrors the `decision-<node>-<function>` naming convention). -/
def PNodeId.render : PNodeId → String
  | .plain s => s
  | .synth src f => "decision-" ++ src.render ++ "-" ++ f

/-- `FlowNodeData` of `lib/types/flowTypes.ts`: common node data plus the
decision-node-specific projection fields. -/
structure FlowNodeData where
  label : Option String
  type : Option NodeType
  role_messages : Option (List MessageJson)
  task_messages : Option (List MessageJson)
  functions : Option (List FlowFunctionJson)
  pre_actions : Option (List ActionJson)
  post_actions : Option (List ActionJson)
  context_strategy : Option ContextStrategyConfigJson
  respond_immediately : Option Bool
  action : Option String
  conditionCount : Option Nat
  sourceNodeId : Option PNodeId
  functionName : Option String
deriving DecidableEq, Repr

/-- An all-`none` node data record, used as base when building values. -/
def emptyNodeData : FlowNodeData :=
  ⟨none, none, none, none, none, none, none, none, none, none, none, none, none⟩

/-- `FlowNode`: a node of the presentation graph (same shape as a document
node; the document schema simply never uses the `decision` type). -/
structure FlowNode where
  id : PNodeId
  type : NodeType
  position : Position
  data : FlowNodeData
deriving DecidableEq, Repr

/-- A derived presentation/document edge.  The edge deriver of §4.2 emits
`{ source, target, label }` records. -/
structure FlowEdge where
  source : PNodeId
  target : PNodeId
  label : Option String
deriving DecidableEq, Repr

/-- `FlowJson`: the canonical flow document
`{ meta, context?, global_functions[], nodes[], edges[] }`; `edges` is a
derived cache, not a source of truth (§3). -/
structure FlowJson where
  meta : Option MetaJson
  context : Option (List (String × String))
  global_functions : Option (List GlobalFunctionJson)
  nodes : List FlowNode
  edges : Option (List FlowEdge)
deriving DecidableEq, Repr

/-- The presentation graph handed to React Flow: nodes plus derived edges. -/
structure ReactFlowGraph where
  nodes : List FlowNode
  edges : List FlowEdge
deriving DecidableEq, Repr

/-- The functions list of a node (`node.data?.functions ?? []`). -/
def nodeFunctions (n : FlowNode) : List FlowFunctionJson :=
  n.data.functions.getD []

/-! ## Decision-node id utilities and projection

`lib/utils/decisionNodes.ts` is absent from the sources; these definitions
are modelled from §3/§4.3 of the specification. -/

/-- Modelled from the spec: deterministic composite id of a synthetic
decision node, from `(sourceNodeId, functionName)`. -/
def generateDecisionNodeId (sourceNodeId : PNodeId) (functionName : String) : PNodeId :=
  .synth sourceNodeId functionName

/-- Modelled from the spec: recover the `(sourceNodeId, functionName)` pair
from a synthetic decision-node id; `none` on a plain node id. -/
def parseDecisionNodeId : PNodeId → Option (PNodeId × String)
  | .plain _ => none
  | .synth src f => some (src, f)

/-- Offset applied to the owning node's position when a decision node is
first created without a stored `decision_node_position` (§4.3 step 2 says
"an offset from the owning node's position"; the concrete offset is not
fixed by the spec). -/
def decisionNodeOffset : Position := ⟨200, 80⟩

/-- Modelled from the spec (§4.3): seed node for a function's decision —
`label = function.name`, `action = decision.action`,
`conditionCount = decision.conditions.length`, back-references to the owning
node and function, and position from `decision_node_position` if present,
else an offset from the owning node's position. -/
def getDecisionNodeData (sourceNodeId : PNodeId) (sourcePos : Position)
    (f : FlowFunctionJson) : FlowNode :=
  let dec := f.decision.getD ⟨"", [], "", none⟩
  { id := generateDecisionNodeId sourceNodeId f.name
    type := .decision
    position := dec.decision_node_position.getD
      ⟨sourcePos.x + decisionNodeOffset.x, sourcePos.y + decisionNodeOffset.y⟩
    data := { emptyNodeData with
                label := some f.name
                type := some .decision
                action := some dec.action
                conditionCount := some dec.conditions.length
                sourceNodeId := some sourceNodeId
                functionName := some f.name } }

/-! ## Decision-node synthesizer (`hooks/useDecisionNodes.ts`)

The reconciliation pass of the `useDecisionNodes` effect, as a pure function
on the node list. -/

/-- The `(regular node, function with decision)` pairs scanned by the hook. -/
def decisionPairs (nodes : List FlowNode) : List (FlowNode × FlowFunctionJson) :=
  (nodes.filter fun n => n.type ≠ .decision).flatMap fun n =>
    ((nodeFunctions n).filter fun f => f.decision.isSome).map fun f => (n, f)

/-- `validDecisionIds`: ids of decision nodes that should exist. -/
def wantedDecisionIds (nodes : List FlowNode) : List PNodeId :=
  (decisionPairs nodes).map fun p => generateDecisionNodeId p.1.id p.2.name

/-- The changed-data test of the hook: label, action, conditionCount and the
two back-reference fields are compared. -/
def decisionDataChanged (oldData newData : FlowNodeData) : Bool :=
  oldData.label ≠ newData.label ∨
  oldData.action ≠ newData.action ∨
  oldData.conditionCount ≠ newData.conditionCount ∨
  oldData.sourceNodeId ≠ newData.sourceNodeId ∨
  oldData.functionName ≠ newData.functionName

/-- `decisionNodesToCreate`: wanted decision nodes with no existing node of
that id. -/
def decisionNodesToCreate (nodes : List FlowNode) : List FlowNode :=
  (decisionPairs nodes).filterMap fun p =>
    let did := generateDecisionNodeId p.1.id p.2.name
    match nodes.find? fun m => m.id = did with
    | some _ => none
    | none => some (getDecisionNodeData p.1.id p.1.position p.2)

/-- `decisionNodesToUpdate`: existing decision nodes whose projected data
changed, keyed by id, with the refreshed node as value. -/
def decisionNodesToUpdate (nodes : List FlowNode) : List (PNodeId × FlowNode) :=
  (decisionPairs nodes).filterMap fun p =>
    let did := generateDecisionNodeId p.1.id p.2.name
    match nodes.find? fun m => m.id = did with
    | none => none
    | some existing =>
        let newData := (getDecisionNodeData p.1.id p.1.position p.2).data
        if decisionDataChanged existing.data newData then
          some (did, { existing with data := newData })
        else none

/-- `hasOrphanedNodes`: a decision node whose id is no longer wanted. -/
def hasOrphanedDecisionNodes (nodes : List FlowNode) : Bool :=
  nodes.any fun n => n.type = .decision ∧ n.id ∉ wantedDecisionIds nodes

/-- First step of the `setNodes` updater body of the hook: drop orphaned
decision nodes (a decision node survives only if its id is still wanted). -/
def reconcileFiltered (nodes : List FlowNode) : List FlowNode :=
  nodes.filter fun n => n.type = .decision → n.id ∈ wantedDecisionIds nodes

/-- Key lookup in the update map (the TS `Map.get`; the reconciliation
only ever builds maps with pairwise distinct keys). -/
def lookupById : List (PNodeId × FlowNode) → PNodeId → Option FlowNode
  | [], _ => none
  | kv :: rest, i => if kv.1 = i then some kv.2 else lookupById rest i

/-- Per-node action of the second step: a surviving decision node is
swapped for its updated value when the update map holds its id. -/
def reconcileTransform (nodes : List FlowNode) (n : FlowNode) : FlowNode :=
  if n.type = .decision then
    match lookupById (decisionNodesToUpdate nodes) n.id with
    | some u => u
    | none => n
  else n

/-- Second step: apply the update map to the surviving decision nodes. -/
def reconcileMapped (nodes : List FlowNode) : List FlowNode :=
  (reconcileFiltered nodes).map (reconcileTransform nodes)

/-- Third step: append the new decision nodes, skipping any id already
present (the guarded `forEach` push of the hook). -/
def appendFreshNodes (acc : List FlowNode) : List FlowNode → List FlowNode
  | [] => acc
  | c :: cs =>
      appendFreshNodes (if acc.any fun m => m.id = c.id then acc else acc ++ [c]) cs

/-- The `setNodes` updater body of the hook: drop orphaned decision nodes,
apply the update map to the surviving decision nodes, then append the new
decision nodes, skipping any id already present. -/
def reconcileCore (nodes : List FlowNode) : List FlowNode :=
  appendFreshNodes (reconcileMapped nodes) (decisionNodesToCreate nodes)

/-- One run of the `useDecisionNodes` reconciliation: the hook only calls
`setNodes` when there is something to create, update or remove. -/
def reconcileDecisionNodes (nodes : List FlowNode) : List FlowNode :=
  if (decisionNodesToCreate nodes).isEmpty ∧ (decisionNodesToUpdate nodes).isEmpty ∧
      ¬hasOrphanedDecisionNodes nodes then
    nodes
  else
    reconcileCore nodes

/-! ## Edge deriver

`lib/utils/edgeDerivation.ts` is absent from the sources; modelled from
§4.2 of the specification. -/

/-- Surface text of a condition operator. -/
def condOpText : CondOp → String
  | .lt => "<"
  | .le => "<="
  | .eq => "=="
  | .ge => ">="
  | .gt => ">"
  | .ne => "!="
  | .notOp => "not"
  | .inOp => "in"
  | .notInOp => "not in"

/-- Modelled from the spec (§4.2): derive the presentation edges from the
routing metadata of every non-synthetic node's functions.  A plain
`next_node_id` yields one labelled edge; a decision yields an unlabelled
structural edge into the synthetic decision node plus one labelled edge per
condition and one for the default. -/
def deriveEdgesFromNodes (nodes : List FlowNode) : List FlowEdge :=
  (nodes.filter fun n => n.type ≠ .decision).flatMap fun n =>
    (nodeFunctions n).flatMap fun f =>
      match f.decision with
      | some dec =>
          let did := generateDecisionNodeId n.id f.name
          ⟨n.id, did, none⟩ ::
          (dec.conditions.map fun c =>
            (⟨did, .plain c.next_node_id,
              some (condOpText c.operator ++ " " ++ c.value)⟩ : FlowEdge)) ++
          [⟨did, .plain dec.default_next_node_id, some "default"⟩]
      | none =>
          match f.next_node_id with
          | some t => [⟨n.id, .plain t, some f.name⟩]
          | none => []

/-! ## Adapter (`lib/convert/flowAdapters.ts`)

Absent from the sources; modelled from §4.4 of the specification.  The
presentation graph is `{ nodes, edges }` (§3), so the top-level `meta`,
`context` and `global_functions` of the document have no carrier in it. -/

/-- Modelled from the spec (§4.4): `toPresentation` maps document nodes 1:1,
runs the decision-node synthesizer once, then runs the edge deriver. -/
def flowJsonToReactFlow (doc : FlowJson) : ReactFlowGraph :=
  let ns := reconcileDecisionNodes doc.nodes
  ⟨ns, deriveEdgesFromNodes ns⟩

/-- Modelled from the spec (§4.4): `toDocument` strips synthetic nodes and
derived edges, keeping only non-synthetic nodes with their function data
verbatim, and repopulates the `edges` cache from the deriver. -/
def reactFlowToFlowJson (nodes : List FlowNode) (_edges : List FlowEdge) : FlowJson :=
  { meta := none
    context := none
    global_functions := none
    nodes := nodes.filter fun n => n.type ≠ .decision
    edges := some (deriveEdgesFromNodes nodes) }

/-- The round trip of §8: `toDocument(toPresentation(doc))`. -/
def flowRoundTrip (doc : FlowJson) : FlowJson :=
  let rf := flowJsonToReactFlow doc
  reactFlowToFlowJson rf.nodes rf.edges

/-! ## Validator (`lib/validation/validator.ts`)

Absent from the sources; modelled from §4.1 of the specification. -/

/-- A structural (schema) error: `{ path, message }`. -/
structure StructuralError where
  path : String
  message : String
deriving DecidableEq, Repr

/-- Result of the structural pass. -/
structure ValidationResult where
  valid : Bool
  errors : List StructuralError
deriving DecidableEq, Repr

/-- Modelled from the spec (§4.1 pass 1): the structural pass checks the
document shape — here, on the typed embedding, the checks that remain
expressible are that `nodes` has at least one element and that every node's
`type` is a member of the document enum `initial | node | end` (the
synthetic `decision` kind is not part of the document schema).  Dangling
references are explicitly *not* structural errors (§3). -/
def validateFlowJson (doc : FlowJson) : ValidationResult :=
  let errs :=
    (if doc.nodes.isEmpty then
      [(⟨"/nodes", "must NOT have fewer than 1 items"⟩ : StructuralError)]
    else []) ++
    doc.nodes.filterMap fun n =>
      if n.type = .decision then
        some ⟨"/nodes/" ++ n.id.render ++ "/type",
              "must be equal to one of the allowed values"⟩
      else none
  ⟨errs.isEmpty, errs⟩

/-- A graph-semantic error: `{ message }`. -/
structure GraphError where
  message : String
deriving DecidableEq, Repr

/-- The routing references of one function: plain `next_node_id` (when
present), every condition target and the decision default (§4.1 pass 2b). -/
def functionReferences (f : FlowFunctionJson) : List String :=
  (match f.next_node_id with
   | some t => [t]
   | none => []) ++
  (match f.decision with
   | some dec => dec.conditions.map (fun c => c.next_node_id) ++ [dec.default_next_node_id]
   | none => [])

/-- Modelled from the spec (§4.1 pass 2): the graph-semantic pass reports
duplicate node ids and every function routing reference that does not name
an existing node id. -/
def customGraphChecks (doc : FlowJson) : List GraphError :=
  let ids := doc.nodes.map fun n => n.id
  let dups := ids.dedup.filterMap fun i =>
    if 1 < ids.count i then
      some (⟨"Duplicate node id: " ++ i.render⟩ : GraphError)
    else none
  let dangling := doc.nodes.flatMap fun n =>
    (nodeFunctions n).flatMap fun f =>
      (functionReferences f).filterMap fun r =>
        if (PNodeId.plain r) ∈ ids then none
        else some (⟨"Edge references unknown node: " ++ r⟩ : GraphError)
  dups ++ dangling

/-- A document is valid when both validator passes accept it (§4.1). -/
def validFlowJson (doc : FlowJson) : Prop :=
  (validateFlowJson doc).valid = true ∧ customGraphChecks doc = []

instance (doc : FlowJson) : Decidable (validFlowJson doc) := by
  unfold validFlowJson
  infer_instance

/-! ## Python code generator (`lib/codegen/pythonGenerator.ts`)

Absent from the sources; modelled from §4.6 of the specification:
deterministic template expansion with one `create_<id>_node` unit per node,
conditions compiled to an ordered if/elif chain with the default as the
trailing else, the decision `action` inserted verbatim, and context-strategy
wiring emitted only when a node carries `context_strategy`. -/

/-- Python identifier for a node id (document node ids are plain strings). -/
def pyNodeName : PNodeId → String
  | .plain s => s
  | .synth src f => pyNodeName src ++ "_" ++ f

/-- Handler body lines for one function: the routing part of the generated
handler (§4.6). -/
def generateFunctionLines (f : FlowFunctionJson) : List String :=
  ("    # function: " ++ f.name) ::
  match f.decision with
  | some dec =>
      ("    result = " ++ dec.action) ::
      (dec.conditions.enum.flatMap fun ic =>
        [(if ic.1 = 0 then "    if " else "    elif ") ++
           "result " ++ condOpText ic.2.operator ++ " " ++ ic.2.value ++ ":",
         "        return None, create_" ++ ic.2.next_node_id ++ "_node()"]) ++
      ["    else:",
       "        return None, create_" ++ dec.default_next_node_id ++ "_node()"]
  | none =>
      match f.next_node_id with
      | some t => ["    return None, create_" ++ t ++ "_node()"]
      | none => ["    return None, None"]

/-- Lines of one node's handler-producing unit. -/
def generateNodeLines (n : FlowNode) : List String :=
  ("def create_" ++ pyNodeName n.id ++ "_node():") ::
  (match n.data.context_strategy with
   | some _ => ["    context_strategy = ContextStrategyConfig(...)"]
   | none => []) ++
  (nodeFunctions n).flatMap generateFunctionLines ++
  ["    return node"]

/-- Modelled from the spec (§4.6): `compile(doc) -> sourceText`, as a list
of source lines. -/
def generatePythonCode (doc : FlowJson) : List String :=
  ["from pipecat_flows import FlowManager"] ++
  (if doc.nodes.any fun n => n.data.context_strategy.isSome then
    ["from pipecat_flows import ContextStrategyConfig"]
  else []) ++
  doc.nodes.flatMap generateNodeLines

/-! ## Toolbar export gates (`components/header/Toolbar.tsx`)

The validation control flow of `onSaveTemplate`, `onExport` and
`onExportPython`, with the browser chrome (prompts, downloads, toasts)
abstracted into an outcome value. -/

/-- Outcome of an export-like operation: either refused by a validation
gate, or the payload leaves the editor. -/
inductive ExportResult (α : Type)
  | refused (message : String)
  | exported (payload : α)
deriving DecidableEq, Repr

/-- Whether the operation produced output. -/
def ExportResult.isExported : ExportResult α → Bool
  | .refused _ => false
  | .exported _ => true

/-- `onSaveTemplate`: converts the graph, blocks on a structural-pass
failure, then blocks on graph-semantic errors, and only then sends the
document. -/
def onSaveTemplateGate (nodes : List FlowNode) (edges : List FlowEdge) :
    ExportResult FlowJson :=
  let json := reactFlowToFlowJson nodes edges
  if ¬(validateFlowJson json).valid then
    .refused "Flow must be valid before saving template"
  else if ¬(customGraphChecks json).isEmpty then
    .refused "Custom validation failed. See console for details."
  else
    .exported json

/-- `onExport` (JSON export): converts the graph and downloads it; no
validator pass is invoked on this path. -/
def onExportGate (nodes : List FlowNode) (edges : List FlowEdge) :
    ExportResult FlowJson :=
  let json := reactFlowToFlowJson nodes edges
  .exported json

/-- `onExportPython`: converts the graph, blocks on a structural-pass
failure, then generates the Python source; `customGraphChecks` is not
invoked on this path. -/
def onExportPythonGate (nodes : List FlowNode) (edges : List FlowEdge) :
    ExportResult (List String) :=
  let json := reactFlowToFlowJson nodes edges
  if ¬(validateFlowJson json).valid then
    .refused "Flow must be valid before exporting Python code"
  else
    .exported (generatePythonCode json)

/-! ## Canvas drag write-back (`EditorShell.onNodesChange` and
`extractDecisionNodeFromChange` of `hooks/useDecisionNodes.ts`) -/

/-- A React Flow node change; only position changes matter to the
write-back (the `other` constructor stands for every other change kind). -/
inductive NodeChange
  | position (id : PNodeId) (dragging : Bool) (position : Option Position)
  | other
deriving DecidableEq, Repr

/-- Decision-drag info extracted from a position change. -/
structure DecisionDragInfo where
  sourceNodeId : PNodeId
  functionName : String
  position : Position
deriving DecidableEq, Repr

/-- `extractDecisionNodeFromChange`: the changed node must exist, be a
decision node and have a parseable composite id; the change must carry a
position. -/
def extractDecisionNodeFromChange (changeId : PNodeId) (changePos : Option Position)
    (nodes : List FlowNode) : Option DecisionDragInfo :=
  match nodes.find? fun n => n.id = changeId with
  | none => none
  | some n =>
      if n.type ≠ .decision then none
      else match changePos with
        | none => none
        | some p =>
            match parseDecisionNodeId n.id with
            | none => none
            | some sf => some ⟨sf.1, sf.2, p⟩

/-- Replace the first element satisfying `p` (the `findIndex` + index-set
idiom of the sources). -/
def updateFirst (p : α → Bool) (g : α → α) : List α → List α
  | [] => []
  | x :: xs => if p x then g x :: xs else x :: updateFirst p g xs

/-- Store a drop position in a function's decision (the spread update of
`onNodesChange`). -/
def setDecisionPosition (pos : Position) (f : FlowFunctionJson) :
    FlowFunctionJson :=
  { f with decision := f.decision.map fun dec =>
      { dec with decision_node_position := some pos } }

/-- Set `decision.decision_node_position` on the first function of the list
matching the dragged decision node (the inner `findIndex` + update of
`onNodesChange`; the predicate already requires the decision to exist). -/
def writeDecisionPosition (functionName : String) (pos : Position)
    (fns : List FlowFunctionJson) : List FlowFunctionJson :=
  updateFirst (fun f => f.name = functionName ∧ f.decision.isSome)
    (setDecisionPosition pos) fns

/-- Apply the drag write-back to the owning node: its functions list is
rewritten through `writeDecisionPosition`, nothing else changes. -/
def writeDecisionPositionOnNode (functionName : String) (pos : Position)
    (n : FlowNode) : FlowNode :=
  { n with data := { n.data with
      functions := some (writeDecisionPosition functionName pos (nodeFunctions n)) } }

/-- The decision write-back of `onNodesChange`: for every settled position
change (`dragging === false` with a position) on a decision node, write the
new position onto the owning function's `decision.decision_node_position`.
The lookup of the drag info runs against the node list as it was when the
event fired (`currentNodes` in the sources); the update is applied to the
evolving copy. -/
def applyDecisionPositionChanges (changes : List NodeChange)
    (nodes : List FlowNode) : List FlowNode :=
  let positionChanges := changes.filterMap fun c =>
    match c with
    | .position i false (some p) => some (i, p)
    | _ => none
  if positionChanges.isEmpty then nodes
  else
    positionChanges.foldl
      (fun updatedNodes ip =>
        match extractDecisionNodeFromChange ip.1 (some ip.2) nodes with
        | none => updatedNodes
        | some info =>
            updateFirst (fun n => n.id = info.sourceNodeId)
              (writeDecisionPositionOnNode info.functionName info.position)
              updatedNodes)
      nodes

/-! ## Cross-cutting reference maintenance

`lib/utils/nodeUpdates.ts` is absent from the sources;
`updateFunctionReferences` is modelled from §4.5 of the specification.  The
`onRenameNode` wiring itself is translated from `EditorShell`. -/

/-- Rewrite one routing reference: `oldId` becomes `newId`, anything else is
untouched. -/
def renameRef (oldId newId r : String) : String :=
  if r = oldId then newId else r

/-- Modelled from the spec (§4.5): rewrite every `next_node_id`, every
condition target and every `default_next_node_id` equal to the old id, on
one function. -/
def renameFunctionRefs (oldId newId : String) (f : FlowFunctionJson) :
    FlowFunctionJson :=
  { f with
      next_node_id := f.next_node_id.map (renameRef oldId newId)
      decision := f.decision.map fun dec =>
        { dec with
            default_next_node_id := renameRef oldId newId dec.default_next_node_id
            conditions := dec.conditions.map fun c =>
              { c with next_node_id := renameRef oldId newId c.next_node_id } } }

/-- The reference rewrite of one node: every function is passed through
`renameFunctionRefs`, nothing else on the node changes. -/
def renameNodeRefs (oldId newId : String) (n : FlowNode) : FlowNode :=
  { n with data := { n.data with
      functions := n.data.functions.map fun fns =>
        fns.map (renameFunctionRefs oldId newId) } }

/-- Modelled from the spec (§4.5): the cascade applied to every node. -/
def updateFunctionReferences (nodes : List FlowNode) (oldId newId : String) :
    List FlowNode :=
  nodes.map (renameNodeRefs oldId newId)

/-- The id rewrite of one node (`n.id === oldId ? { ...n, id: newId } : n`). -/
def renameNodeId (oldId newId : String) (n : FlowNode) : FlowNode :=
  if n.id = .plain oldId then { n with id := .plain newId } else n

/-- `onRenameNode` of `EditorShell`: rename the node id, rewrite edge
endpoints, then run the function-reference cascade. -/
def onRenameNode (nodes : List FlowNode) (edges : List FlowEdge)
    (oldId newId : String) : List FlowNode × List FlowEdge :=
  let ns := nodes.map (renameNodeId oldId newId)
  let es := edges.map fun e =>
    { e with
        source := if e.source = .plain oldId then .plain newId else e.source
        target := if e.target = .plain oldId then .plain newId else e.target }
  (updateFunctionReferences ns oldId newId, es)

/-! ## Decision creation (`FunctionsForm` / `DecisionSection`) -/

/-- The decision-creation click handler: build a decision whose default
route is the function's current `next_node_id` (empty string when absent —
`func.next_node_id || ""`), merged into the function the way `updateItem`
spreads a partial update. -/
def createDecisionOnFunction (f : FlowFunctionJson) : FlowFunctionJson :=
  let dflt : String :=
    match f.next_node_id with
    | some t => if t = "" then "" else t
    | none => ""
  { f with decision := some ⟨"", [], dflt, none⟩ }

/-! ## Node duplication (`lib/utils/nodeDuplication.ts`)

`generateCopyLabel` and `duplicateNode` are translated from the sources;
the regular expressions are unfolded into character-level matching with the
same semantics (`\s+` a run of whitespace, `copy` matched case-insensitively,
`\d+` a run of digits, the non-greedy base group the shortest prefix that
leaves a matching suffix). -/

/-- Whitespace test (JS `\s` on the common whitespace characters). -/
def isWsChar (c : Char) : Bool :=
  c = ' ' ∨ c = '\t' ∨ c = '\n' ∨ c = '\r' ∨ c = '\x0b' ∨ c = '\x0c'

/-- `String.prototype.trim` on a character list. -/
def trimChars (cs : List Char) : List Char :=
  ((cs.dropWhile isWsChar).reverse.dropWhile isWsChar).reverse

/-- Consume `\s+` (at least one whitespace character, maximal run). -/
def dropWsRun : List Char → Option (List Char)
  | [] => none
  | c :: rest => if isWsChar c then some (rest.dropWhile isWsChar) else none

/-- Consume the literal `copy`, case-insensitively. -/
def stripCopyWord : List Char → Option (List Char)
  | c1 :: c2 :: c3 :: c4 :: rest =>
      if c1.toLower = 'c' ∧ c2.toLower = 'o' ∧ c3.toLower = 'p' ∧ c4.toLower = 'y' then
        some rest
      else none
  | _ => none

/-- Digit test for `\d`. -/
def isDigitChar (c : Char) : Bool := '0' ≤ c ∧ c ≤ '9'

/-- Whether a character list matches `^\s+copy(?:\s+\d+)?$` (the optional
copy suffix of the label regex). -/
def matchCopyTail (cs : List Char) : Bool :=
  match dropWsRun cs with
  | none => false
  | some cs1 =>
      match stripCopyWord cs1 with
      | none => false
      | some rest =>
          rest.isEmpty ||
          (match dropWsRun rest with
           | some ds => !ds.isEmpty && ds.all isDigitChar
           | none => false)

/-- Index of the non-greedy split of `^(.+?)(\s+copy(?:\s+\d+)?)?$`: the
least `i ≥ 1` such that the suffix from `i` matches the copy-suffix group;
`none` when only the empty suffix matches. -/
def findCopySplit (cs : List Char) : Option Nat :=
  (List.range cs.length).find? fun i => 1 ≤ i ∧ matchCopyTail (cs.drop i)

/-- `copyMatch[1].trim()`: the base name with any one trailing copy suffix
stripped. -/
def baseNameChars (cs : List Char) : List Char :=
  match findCopySplit cs with
  | some i => trimChars (cs.take i)
  | none => cs

/-- `parseInt` on a digit run. -/
def parseIntDigits (ds : List Char) : Nat :=
  ds.foldl (fun n c => n * 10 + (c.toNat - '0'.toNat)) 0

/-- Match a label against `^<base>\s+copy(?:\s+(\d+))?$` (case-insensitive);
returns the copy number, `1` when the number group is absent. -/
def matchCopyPattern (base label : List Char) : Option Nat :=
  if (label.take base.length).map Char.toLower = base.map Char.toLower then
    match dropWsRun (label.drop base.length) with
    | none => none
    | some cs1 =>
        match stripCopyWord cs1 with
        | none => none
        | some rest =>
            if rest.isEmpty then some 1
            else
              match dropWsRun rest with
              | some ds =>
                  if !ds.isEmpty && ds.all isDigitChar then some (parseIntDigits ds)
                  else none
              | none => none
  else none

/-- `generateCopyLabel`: `"Node" -> "Node copy"`,
`"Node copy" -> "Node copy 2"`, etc., scanning the existing labels for the
highest copy number of the same base name. -/
def generateCopyLabel (originalLabel : String) (existingLabels : List String) :
    String :=
  let t := trimChars originalLabel.data
  let baseLabel := if t.isEmpty then "Node".data else t
  let baseName := baseNameChars baseLabel
  let maxCopyNumber : Nat := existingLabels.foldl
    (fun mx l =>
      match matchCopyPattern baseName l.data with
      | some k => max mx k
      | none => mx) 0
  if maxCopyNumber = 0 then String.mk baseName ++ " copy"
  else String.mk baseName ++ " copy " ++ toString (maxCopyNumber + 1)

/-- JS `value || dflt` on an optional string: the empty string is falsy. -/
def labelOr (o : Option String) (dflt : String) : String :=
  match o with
  | some s => if s = "" then dflt else s
  | none => dflt

/-- Modelled from the spec: `lib/utils/nodeId.ts` is absent from the
sources.  `generateNodeIdFromLabel` returns a label-derived id that is
distinct from every existing id (§3: "Node ids are unique across the
presentation graph"); when the label itself is taken, a suffix built from
the existing ids keeps the result fresh. -/
def generateNodeIdFromLabel (label : String) (existingIds : List PNodeId) :
    PNodeId :=
  if (PNodeId.plain label) ∈ existingIds then
    .plain (label ++ "_" ++
      existingIds.foldl (fun acc i => acc ++ i.render) "" ++ "x")
  else
    .plain label

/-- `duplicateNode`: deep-clone the node data (the source's
serialize/deserialize round trip, which is the identity on the pure
embedding), give the clone a fresh copy-suffixed label and a fresh id, and
offset its position by `(+100, +20)`. -/
def duplicateNode (node : FlowNode) (allNodes : List FlowNode) : FlowNode :=
  let clonedData := node.data
  let existingLabels :=
    (allNodes.map fun n => labelOr n.data.label "").filter fun s => s ≠ ""
  let originalLabel := labelOr node.data.label "Node"
  let newLabel := generateCopyLabel originalLabel existingLabels
  let existingIds := allNodes.map fun n => n.id
  let newId := generateNodeIdFromLabel newLabel existingIds
  { node with
      id := newId
      position := ⟨node.position.x + 100, node.position.y + 20⟩
      data := { clonedData with label := some newLabel } }

/-! ## Undo engine (`lib/undo/undoManager.ts`)

Absent from the sources; modelled from §4.7 of the specification: a bounded
stack of full snapshots, `push` appending only when the snapshot differs
from the top, `undo`/`redo` popping/pushing between two stacks and returning
the snapshot to restore or `null`. -/

/-- Bound of the snapshot stack (the spec only says "bounded"). -/
def undoStackLimit : Nat := 100

/-- Modelled from the spec (§4.7): snapshot stacks plus the snapshot the
editor currently shows (the top of the history). -/
structure UndoManager (α : Type) where
  current : α
  undoStack : List α
  redoStack : List α
deriving DecidableEq, Repr

/-- A fresh manager seeded with the initial presentation state. -/
def UndoManager.create (a : α) : UndoManager α := ⟨a, [], []⟩

/-- `push(snapshot)`: append only when the snapshot differs from the top;
a real push truncates the history to the bound and clears the redo stack. -/
def UndoManager.push [DecidableEq α] (m : UndoManager α) (s : α) :
    UndoManager α :=
  if s = m.current then m
  else ⟨s, (m.current :: m.undoStack).take undoStackLimit, []⟩

/-- `undo()`: returns the snapshot to restore (or `none` on an empty undo
stack) together with the manager afterwards. -/
def UndoManager.undo (m : UndoManager α) : Option α × UndoManager α :=
  match m.undoStack with
  | [] => (none, m)
  | s :: rest => (some s, ⟨s, rest, m.current :: m.redoStack⟩)

/-- `redo()`: inverse motion between the two stacks. -/
def UndoManager.redo (m : UndoManager α) : Option α × UndoManager α :=
  match m.redoStack with
  | [] => (none, m)
  | s :: rest => (some s, ⟨s, m.current :: m.undoStack, rest⟩)

/-- `canUndo()`. -/
def UndoManager.canUndo (m : UndoManager α) : Bool := ¬m.undoStack.isEmpty

/-- `canRedo()`. -/
def UndoManager.canRedo (m : UndoManager α) : Bool := ¬m.redoStack.isEmpty

/-- Push a whole sequence of snapshots in order. -/
def UndoManager.pushAll [DecidableEq α] (m : UndoManager α) (l : List α) :
    UndoManager α :=
  l.foldl UndoManager.push m

/-- The manager after one `undo()`. -/
def undoStep (m : UndoManager α) : UndoManager α := m.undo.2

/-- The manager after one `redo()`. -/
def redoStep (m : UndoManager α) : UndoManager α := m.redo.2

/-- The manager after `k` calls of `undo()`. -/
def undoTimes (k : Nat) (m : UndoManager α) : UndoManager α := undoStep^[k] m

/-- The manager after `k` calls of `redo()`. -/
def redoTimes (k : Nat) (m : UndoManager α) : UndoManager α := redoStep^[k] m

/-! ## Formal statements of spec properties (used by theorem statements) -/

/-- C5 statement: a condition after a rename of `oldId` to `newId` — its
target is rewritten exactly when it equalled `oldId`, everything else is
untouched. -/
def RenamedCondition (oldId newId : String) (c c' : DecisionConditionJson) : Prop :=
  c'.operator = c.operator ∧ c'.value = c.value ∧
    c'.next_node_id = if c.next_node_id = oldId then newId else c.next_node_id

/-- C5 statement: a decision after the rename — default and condition
targets conditionally rewritten, all other fields untouched. -/
def RenamedDecision (oldId newId : String) (d d' : DecisionJson) : Prop :=
  d'.action = d.action ∧
  d'.decision_node_position = d.decision_node_position ∧
  d'.default_next_node_id =
    (if d.default_next_node_id = oldId then newId else d.default_next_node_id) ∧
  d'.conditions.length = d.conditions.length ∧
  ∀ (k : Nat) (c : DecisionConditionJson), d.conditions[k]? = some c →
    ∃ c', d'.conditions[k]? = some c' ∧ RenamedCondition oldId newId c c'

/-- C5 statement: a function after the rename — the plain `next_node_id`
conditionally rewritten, the decision renamed per `RenamedDecision`, every
other field untouched. -/
def RenamedFunction (oldId newId : String) (f f' : FlowFunctionJson) : Prop :=
  f'.name = f.name ∧ f'.description = f.description ∧
  f'.properties = f.properties ∧ f'.required = f.required ∧
  f'.next_node_id =
    (if f.next_node_id = some oldId then some newId else f.next_node_id) ∧
  ((f.decision = none ∧ f'.decision = none) ∨
    ∃ d d', f.decision = some d ∧ f'.decision = some d' ∧
      RenamedDecision oldId newId d d')

/-- C5 statement: a node after the rename — its id rewritten exactly when
it was the renamed one, every function renamed per `RenamedFunction`, and
every other node/data field untouched. -/
def RenamedNode (oldId newId : String) (n n' : FlowNode) : Prop :=
  n'.id = (if n.id = PNodeId.plain oldId then PNodeId.plain newId else n.id) ∧
  n'.type = n.type ∧ n'.position = n.position ∧
  n'.data.label = n.data.label ∧
  n'.data.type = n.data.type ∧
  n'.data.role_messages = n.data.role_messages ∧
  n'.data.task_messages = n.data.task_messages ∧
  n'.data.pre_actions = n.data.pre_actions ∧
  n'.data.post_actions = n.data.post_actions ∧
  n'.data.context_strategy = n.data.context_strategy ∧
  n'.data.respond_immediately = n.data.respond_immediately ∧
  n'.data.action = n.data.action ∧
  n'.data.conditionCount = n.data.conditionCount ∧
  n'.data.sourceNodeId = n.data.sourceNodeId ∧
  n'.data.functionName = n.data.functionName ∧
  (nodeFunctions n').length = (nodeFunctions n).length ∧
  n'.data.functions.isSome = n.data.functions.isSome ∧
  ∀ (j : Nat) (f : FlowFunctionJson), (nodeFunctions n)[j]? = some f →
    ∃ f', (nodeFunctions n')[j]? = some f' ∧ RenamedFunction oldId newId f f'

/-- C6 statement: after the drag write-back, the source node is unchanged
except that the owning function's `decision.decision_node_position` now
holds the drop position.  `j` is the index of the owning function, `g` its
previous value, `dec` its previous decision. -/
def DecisionDragSpec (s : FlowNode) (j : Nat) (g : FlowFunctionJson)
    (dec : DecisionJson) (p : Position) (s' : FlowNode) : Prop :=
  s'.id = s.id ∧ s'.type = s.type ∧ s'.position = s.position ∧
  s'.data.label = s.data.label ∧ s'.data.type = s.data.type ∧
  s'.data.role_messages = s.data.role_messages ∧
  s'.data.task_messages = s.data.task_messages ∧
  s'.data.pre_actions = s.data.pre_actions ∧
  s'.data.post_actions = s.data.post_actions ∧
  s'.data.context_strategy = s.data.context_strategy ∧
  s'.data.respond_immediately = s.data.respond_immediately ∧
  s'.data.action = s.data.action ∧
  s'.data.conditionCount = s.data.conditionCount ∧
  s'.data.sourceNodeId = s.data.sourceNodeId ∧
  s'.data.functionName = s.data.functionName ∧
  ∃ fns', s'.data.functions = some fns' ∧
    fns'.length = (nodeFunctions s).length ∧
    (∀ k : Nat, k ≠ j → fns'[k]? = (nodeFunctions s)[k]?) ∧
    fns'[j]? =
      some { g with decision := some { dec with decision_node_position := some p } }

/-! ## Concrete documents used by counterexamples, failing inputs and
witnesses -/

/-- A function routing to `b` plainly and through a decision. -/
def c5ExampleFunction : FlowFunctionJson :=
  ⟨"hop", "to b", none, none, some "b",
    some ⟨"pick()", [⟨.eq, "1", "b"⟩, ⟨.lt, "2", "c"⟩], "b", none⟩⟩

/-- A node carrying `c5ExampleFunction`. -/
def c5ExampleNode : FlowNode :=
  ⟨.plain "a", .initial, ⟨0, 0⟩,
    { emptyNodeData with label := some "A", functions := some [c5ExampleFunction] }⟩

/-- A decision used by the C6 witness. -/
def c6Decision : DecisionJson := ⟨"act()", [], "b", none⟩

/-- A function carrying `c6Decision`. -/
def c6SourceFunction : FlowFunctionJson :=
  ⟨"route", "decides", none, none, none, some c6Decision⟩

/-- The node owning `c6SourceFunction`. -/
def c6SourceNode : FlowNode :=
  ⟨.plain "a", .initial, ⟨0, 0⟩,
    { emptyNodeData with label := some "A", functions := some [c6SourceFunction] }⟩

/-- The synthetic decision node projected from `c6SourceFunction`. -/
def c6DecisionNode : FlowNode :=
  getDecisionNodeData (.plain "a") ⟨0, 0⟩ c6SourceFunction

/-- The function of the C1 document: a plain route to `done`. -/
def c1Fn : FlowFunctionJson := ⟨"finish", "go to the end", none, none, some "done", none⟩

/-- A valid document with a custom `meta`: one initial node routing to an
end node, no edge cache. -/
def c1Doc : FlowJson :=
  ⟨some ⟨"custom", some "1", some "a document name the adapter cannot keep"⟩,
    none, none,
    [⟨.plain "start", .initial, ⟨0, 0⟩,
      { emptyNodeData with label := some "Start", functions := some [c1Fn] }⟩,
     ⟨.plain "done", .endNode, ⟨100, 0⟩,
      { emptyNodeData with label := some "Done" }⟩],
    none⟩

/-- A function with a dangling routing target (`missing` names no node). -/
def c2DanglingFunction : FlowFunctionJson :=
  ⟨"go", "proceed to the missing node", none, none, some "missing", none⟩

/-- A structurally valid single-node canvas whose only function dangles. -/
def c2DanglingNode : FlowNode :=
  ⟨.plain "start", .initial, ⟨0, 0⟩,
    { emptyNodeData with label := some "Start", functions := some [c2DanglingFunction] }⟩

/-- A dangling function for the JSON-export failing input. -/
def c3DanglingFunction : FlowFunctionJson :=
  ⟨"leave", "go nowhere", none, none, some "nowhere", none⟩

/-- A canvas whose exported document fails the graph-semantic pass. -/
def c3DanglingNode : FlowNode :=
  ⟨.plain "home", .initial, ⟨0, 0⟩,
    { emptyNodeData with label := some "Home", functions := some [c3DanglingFunction] }⟩

/-- The decision function of the C9 witness: its action was freshly edited
to `fresh()`. -/
def c9Fn : FlowFunctionJson :=
  ⟨"route", "decides", none, none, none, some ⟨"fresh()", [], "b", none⟩⟩

/-- The node owning `c9Fn`. -/
def c9Src : FlowNode :=
  ⟨.plain "a", .initial, ⟨0, 0⟩,
    { emptyNodeData with label := some "A", functions := some [c9Fn] }⟩

/-- A stale synthetic decision node for `c9Fn`, dragged to `(50, 60)`: its
projected `action` is out of date. -/
def c9Stale : FlowNode :=
  ⟨.synth (.plain "a") "route", .decision, ⟨50, 60⟩,
    { emptyNodeData with
        label := some "route", type := some .decision, action := some "stale()",
        conditionCount := some 0, sourceNodeId := some (.plain "a"),
        functionName := some "route" }⟩

/-- The canvas of the C9 witness. -/
def c9Nodes : List FlowNode := [c9Src, c9Stale]

/-- The refreshed decision node: data re-projected, dragged position kept. -/
def c9Fresh : FlowNode :=
  { c9Stale with data := (getDecisionNodeData (.plain "a") ⟨0, 0⟩ c9Fn).data }

/-- The decision function of the C4 witness. -/
def c4Fn : FlowFunctionJson :=
  ⟨"route", "decides", none, none, none,
    some ⟨"act()", [⟨.eq, "1", "b"⟩], "b", none⟩⟩

/-- The node owning `c4Fn`. -/
def c4Src : FlowNode :=
  ⟨.plain "a", .initial, ⟨0, 0⟩,
    { emptyNodeData with label := some "A", functions := some [c4Fn] }⟩

/-- An orphaned synthetic decision node: no function owns it any more. -/
def c4Orphan : FlowNode :=
  ⟨.synth (.plain "z") "gone", .decision, ⟨5, 6⟩,
    { emptyNodeData with label := some "gone", type := some .decision }⟩

/-- The canvas of the C4 witness: one pair wanting a decision node that does
not exist yet, and one orphan to be removed. -/
def c4Nodes : List FlowNode := [c4Src, c4Orphan]

/-! # Theorems -/

/-- **C7.**  When a decision block is first created on a function, the new
decision's `default_next_node_id` is the function's current plain
`next_node_id` (the empty string when it is absent), the decision starts
with an empty action and no conditions, and every other field of the
function — including the now-vestigial `next_node_id` itself — is left
unchanged. -/
theorem c7_decision_creation_default (f : FlowFunctionJson) :
    ∃ dec, (createDecisionOnFunction f).decision = some dec ∧
      dec.default_next_node_id = f.next_node_id.getD "" ∧
      dec.action = "" ∧ dec.conditions = [] ∧
      dec.decision_node_position = none ∧
      (createDecisionOnFunction f).next_node_id = f.next_node_id ∧
      (createDecisionOnFunction f).name = f.name ∧
      (createDecisionOnFunction f).description = f.description ∧
      (createDecisionOnFunction f).properties = f.properties ∧
      (createDecisionOnFunction f).required = f.required := by
  refine ⟨_, rfl, ?_, rfl, rfl, rfl, rfl, rfl, rfl, rfl, rfl⟩
  cases h : f.next_node_id with
  | none => simp [createDecisionOnFunction, h]
  | some t =>
      by_cases ht : t = "" <;> simp [createDecisionOnFunction, h, ht]

/-- **C2.**  Code bug: invoking Python code generation on a document whose
function routing dangles does *not* refuse.  `onExportPython` runs only the
structural pass (`validateFlowJson`), never `customGraphChecks`, so the
dangling document sails through the gate and the generator emits source
referencing the undefined handler `create_missing_node`. -/
theorem c2_compile_refusal_code_bug :
    (validateFlowJson (reactFlowToFlowJson [c2DanglingNode] [])).valid = true ∧
    customGraphChecks (reactFlowToFlowJson [c2DanglingNode] []) ≠ [] ∧
    (onExportPythonGate [c2DanglingNode] []).isExported = true ∧
    "    return None, create_missing_node()" ∈
      (match onExportPythonGate [c2DanglingNode] [] with
       | .exported ls => ls
       | .refused _ => []) := by
  decide

/-- **C3.**  Code bug: the JSON export path (`onExport`) invokes no
validator pass at all.  A canvas whose exported document fails the
graph-semantic pass is exported anyway, and even a document failing the
structural pass (an empty node list) is exported. -/
theorem c3_export_validation_code_bug :
    customGraphChecks (reactFlowToFlowJson [c3DanglingNode] []) ≠ [] ∧
    (onExportGate [c3DanglingNode] []).isExported = true ∧
    (validateFlowJson (reactFlowToFlowJson ([] : List FlowNode) [])).valid = false ∧
    (onExportGate ([] : List FlowNode) []).isExported = true := by
  decide

/-- Folding renders over a list only grows the accumulator. -/
theorem foldl_render_length_le (l : List PNodeId) (init : String) :
    init.length ≤ (l.foldl (fun acc j => acc ++ j.render) init).length := by
  induction l generalizing init with
  | nil => simp
  | cons j rest ih =>
      calc init.length ≤ (init ++ j.render).length := by
            rw [String.length_append]; omega
        _ ≤ _ := ih (init ++ j.render)

/-- Every member's rendered id is no longer than the fold of all renders. -/
theorem foldl_render_length_mem (l : List PNodeId) (i : PNodeId) (hi : i ∈ l)
    (init : String) :
    (i.render).length ≤ (l.foldl (fun acc j => acc ++ j.render) init).length := by
  induction l generalizing init with
  | nil => cases hi
  | cons j rest ih =>
      rcases List.mem_cons.mp hi with h | h
      · subst h
        calc (i.render).length ≤ (init ++ i.render).length := by
              rw [String.length_append]; omega
          _ ≤ _ := foldl_render_length_le rest (init ++ i.render)
      · exact ih h (init ++ j.render)

/-- The generated node id is distinct from every existing id. -/
theorem generateNodeIdFromLabel_fresh (label : String) (ids : List PNodeId) :
    generateNodeIdFromLabel label ids ∉ ids := by
  unfold generateNodeIdFromLabel
  split
  case isFalse h => exact h
  case isTrue h =>
    intro hmem
    have hlen := foldl_render_length_mem ids _ hmem ""
    rw [show (PNodeId.plain
        (label ++ "_" ++ ids.foldl (fun acc i => acc ++ i.render) "" ++ "x")).render =
        label ++ "_" ++ ids.foldl (fun acc i => acc ++ i.render) "" ++ "x" from rfl]
      at hlen
    simp only [String.length_append] at hlen
    rw [show "_".length = 1 from rfl, show "x".length = 1 from rfl] at hlen
    omega

/-- `generateCopyLabel` always produces a copy-suffixed label. -/
theorem generateCopyLabel_shape (originalLabel : String)
    (existingLabels : List String) :
    ∃ base, generateCopyLabel originalLabel existingLabels = base ++ " copy" ∨
      ∃ k : Nat, generateCopyLabel originalLabel existingLabels =
        base ++ " copy " ++ toString k := by
  unfold generateCopyLabel
  dsimp only
  refine ⟨String.mk (baseNameChars (if (trimChars originalLabel.data).isEmpty = true then
    "Node".data else trimChars originalLabel.data)), ?_⟩
  split <;> split <;>
    first
      | exact Or.inl rfl
      | exact Or.inr ⟨_, rfl⟩

/-- Unfolding one `undo()` from a nonempty undo stack. -/
theorem undoStep_cons (c u : α) (U R : List α) :
    undoStep (⟨c, u :: U, R⟩ : UndoManager α) = ⟨u, U, c :: R⟩ := rfl

/-- `undo()` on an empty undo stack changes nothing. -/
theorem undoStep_of_nil (c : α) (R : List α) :
    undoStep (⟨c, [], R⟩ : UndoManager α) = ⟨c, [], R⟩ := rfl

/-- `redo()` on an empty redo stack changes nothing. -/
theorem redoStep_of_nil (c : α) (U : List α) :
    redoStep (⟨c, U, []⟩ : UndoManager α) = ⟨c, U, []⟩ := rfl

/-- Iterating `undo()` unfolds from the inside. -/
theorem undoTimes_succ (k : Nat) (m : UndoManager α) :
    undoTimes (k + 1) m = undoTimes k (undoStep m) :=
  Function.iterate_succ_apply _ _ _

/-- Iterating `redo()` unfolds from the inside. -/
theorem redoTimes_succ (k : Nat) (m : UndoManager α) :
    redoTimes (k + 1) m = redoTimes k (redoStep m) :=
  Function.iterate_succ_apply _ _ _

/-- Any number of `undo()` calls on an empty undo stack changes nothing. -/
theorem undoTimes_of_nil (k : Nat) (c : α) (R : List α) :
    undoTimes k (⟨c, [], R⟩ : UndoManager α) = ⟨c, [], R⟩ := by
  induction k with
  | zero => rfl
  | succ k ih => rw [undoTimes_succ, undoStep_of_nil, ih]

/-- Any number of `redo()` calls on an empty redo stack changes nothing. -/
theorem redoTimes_of_nil (k : Nat) (c : α) (U : List α) :
    redoTimes k (⟨c, U, []⟩ : UndoManager α) = ⟨c, U, []⟩ := by
  induction k with
  | zero => rfl
  | succ k ih => rw [redoTimes_succ, redoStep_of_nil, ih]

/-- State after `j ≤ |undoStack|` calls of `undo()`: the current snapshot
walks `j` steps into the history and the popped snapshots pile onto the
redo stack. -/
theorem undoTimes_le (j : Nat) (c : α) (U R : List α) (d : α)
    (h : j ≤ U.length) :
    undoTimes j (⟨c, U, R⟩ : UndoManager α) =
      ⟨(c :: U).getD j d, U.drop j, ((c :: U).take j).reverse ++ R⟩ := by
  induction j generalizing c U R with
  | zero => simp [undoTimes]
  | succ j ih =>
      cases U with
      | nil => simp at h
      | cons u U' =>
          rw [undoTimes_succ, undoStep_cons,
            ih u U' (c :: R) (by simpa using Nat.succ_le_succ_iff.mp h)]
          simp [List.getD_cons_succ, List.take_succ_cons, List.drop_succ_cons,
            List.reverse_cons, List.append_assoc]

/-- State after `j ≤ |redoStack|` calls of `redo()`: the mirror image of
`undoTimes_le`. -/
theorem redoTimes_le (j : Nat) (c : α) (U R : List α) (d : α)
    (h : j ≤ R.length) :
    redoTimes j (⟨c, U, R⟩ : UndoManager α) =
      ⟨(c :: R).getD j d, ((c :: R).take j).reverse ++ U, R.drop j⟩ := by
  induction j generalizing c U R with
  | zero => simp [redoTimes]
  | succ j ih =>
      cases R with
      | nil => simp at h
      | cons r R' =>
          rw [redoTimes_succ,
            show redoStep (⟨c, U, r :: R'⟩ : UndoManager α) = ⟨r, c :: U, R'⟩ from rfl,
            ih r (c :: U) R' (by simpa using Nat.succ_le_succ_iff.mp h)]
          simp [List.getD_cons_succ, List.take_succ_cons, List.drop_succ_cons,
            List.reverse_cons, List.append_assoc]

/-- `l.take (n+1)` appends the `n`-th element to `l.take n`. -/
theorem take_succ_getD (l : List β) (n : Nat) (d : β) (h : n < l.length) :
    l.take (n + 1) = l.take n ++ [l.getD n d] := by
  induction l generalizing n with
  | nil => simp at h
  | cons a l' ih =>
      cases n with
      | zero => simp
      | succ n =>
          simp only [List.take_succ_cons, List.getD_cons_succ]
          rw [ih n (by simpa using Nat.succ_lt_succ_iff.mp h)]
          rfl

/-- The last entry of a reversed list is the first entry of the list. -/
theorem reverse_getD_last (l : List β) (d : β) (h : l ≠ []) :
    l.reverse.getD (l.length - 1) d = l.getD 0 d := by
  cases l with
  | nil => simp at h
  | cons a l' =>
      have hlen : l'.length < (a :: l').length := by simp
      rw [List.getD_eq_getElem?_getD, List.getD_eq_getElem?_getD]
      simp [List.getElem?_reverse hlen]

/-- Both components of the rewound-and-replayed state, for a prefix of the
history of length `k ≤ |U|`. -/
theorem redo_after_undo_le (k : Nat) (c : α) (U : List α) (hk : k ≤ U.length) :
    redoTimes k (undoTimes k (⟨c, U, []⟩ : UndoManager α)) = ⟨c, U, []⟩ := by
  rw [undoTimes_le k c U [] c hk, List.append_nil]
  have htk : (((c :: U).take k).reverse).length = k := by
    simp [List.length_take]
    omega
  rw [redoTimes_le k _ _ _ c (le_of_eq htk.symm)]
  have hsplit : (c :: U).take (k + 1) = (c :: U).take k ++ [(c :: U).getD k c] :=
    take_succ_getD (c :: U) k c (by simp; omega)
  have hcons : (c :: U).getD k c :: ((c :: U).take k).reverse =
      ((c :: U).take (k + 1)).reverse := by
    rw [hsplit, List.reverse_append]
    rfl
  have hlen1 : ((c :: U).take (k + 1)).length = k + 1 := by
    simp [List.length_take]
    omega
  have hne : (c :: U).take (k + 1) ≠ [] := by
    intro hnil
    rw [hnil] at hlen1
    simp at hlen1
  have hrevU : ((c :: U).take (k + 1)).reverse = ((U.take k).reverse) ++ [c] := by
    rw [List.take_succ_cons, List.reverse_cons]
  have htkU : (U.take k).reverse.length = k := by
    simp [List.length_take]
    omega
  rw [hcons]
  simp only [UndoManager.mk.injEq]
  refine ⟨?_, ?_, ?_⟩
  · have := reverse_getD_last ((c :: U).take (k + 1)) c hne
    rw [hlen1] at this
    simp only [Nat.add_sub_cancel] at this
    rw [this, List.take_succ_cons, List.getD_cons_zero]
  · rw [hrevU, List.take_left' htkU, List.reverse_reverse, List.take_append_drop]
  · exact List.drop_eq_nil_of_le (le_of_eq htk)

/-- `k` calls of `undo()` followed by `k` calls of `redo()` restore the
manager exactly, as long as the redo stack started empty. -/
theorem redo_undo_roundtrip (k : Nat) (c : α) (U : List α) :
    redoTimes k (undoTimes k (⟨c, U, []⟩ : UndoManager α)) = ⟨c, U, []⟩ := by
  rcases le_or_lt k U.length with hk | hk
  · exact redo_after_undo_le k c U hk
  · -- more undos than history: the undo stack saturates, redos replay it all
    have hdecomp : k = (k - U.length) + U.length := by omega
    have hundo : undoTimes k (⟨c, U, []⟩ : UndoManager α) =
        undoTimes U.length (⟨c, U, []⟩ : UndoManager α) := by
      rw [hdecomp]
      show undoStep^[(k - U.length) + U.length] _ = undoStep^[U.length] _
      rw [Function.iterate_add_apply]
      rcases hsat : undoStep^[U.length] (⟨c, U, []⟩ : UndoManager α) with ⟨c', U', R'⟩
      have hU' : U' = [] := by
        have := undoTimes_le U.length c U [] c (le_refl _)
        rw [show undoTimes U.length (⟨c, U, []⟩ : UndoManager α) =
          undoStep^[U.length] (⟨c, U, []⟩ : UndoManager α) from rfl, hsat] at this
        have h2 := congrArg UndoManager.undoStack this
        simpa [List.drop_eq_nil_of_le (le_refl U.length)] using h2
      rw [hU']
      exact undoTimes_of_nil _ _ _
    rw [hundo]
    have hredos : ∀ X : UndoManager α,
        redoTimes k X = redoTimes (k - U.length) (redoTimes U.length X) := by
      intro X
      show redoStep^[k] X = redoStep^[k - U.length] (redoStep^[U.length] X)
      conv_lhs => rw [hdecomp]
      exact Function.iterate_add_apply _ _ _ _
    rw [hredos, redo_after_undo_le U.length c U (le_refl _), redoTimes_of_nil]

/-- After a `push(s)` the current snapshot is `s` (either it was appended
or it already equalled the top). -/
theorem push_current [DecidableEq α] (m : UndoManager α) (s : α) :
    (m.push s).current = s := by
  unfold UndoManager.push
  split
  case isTrue h => exact h.symm
  case isFalse h => rfl

/-- After pushing a nonempty sequence, the current snapshot is the last
pushed one. -/
theorem pushAll_current [DecidableEq α] (m : UndoManager α) (l : List α)
    (h : l ≠ []) : (m.pushAll l).current = l.getLast h := by
  induction l generalizing m with
  | nil => exact absurd rfl h
  | cons a rest ih =>
      cases rest with
      | nil => exact push_current m a
      | cons b rest' =>
          rw [show UndoManager.pushAll m (a :: b :: rest') =
            UndoManager.pushAll (m.push a) (b :: rest') from rfl,
            List.getLast_cons (by simp : b :: rest' ≠ [])]
          exact ih (m.push a) _

/-- `push` keeps an empty redo stack empty (a real push clears it, a no-op
push leaves it alone). -/
theorem push_redo_nil [DecidableEq α] (m : UndoManager α) (s : α)
    (h : m.redoStack = []) : (m.push s).redoStack = [] := by
  unfold UndoManager.push
  split
  · exact h
  · rfl

/-- Pushing any sequence keeps an empty redo stack empty. -/
theorem pushAll_redo_nil [DecidableEq α] (m : UndoManager α) (l : List α)
    (h : m.redoStack = []) : (m.pushAll l).redoStack = [] := by
  induction l generalizing m with
  | nil => exact h
  | cons a rest ih => exact ih (m.push a) (push_redo_nil m a h)

/-- **C8.**  For any sequence of pushed snapshots `s1..sn`, `n-1` calls of
`undo()` followed by `n-1` calls of `redo()` return the manager's state to
`sn`; `undo()` on an empty undo stack returns `null`. -/
theorem c8_undo_redo_inverse {α : Type} [DecidableEq α] (start : α)
    (l : List α) (h : l ≠ []) :
    (redoTimes (l.length - 1) (undoTimes (l.length - 1)
      (UndoManager.pushAll (UndoManager.create start) l))).current = l.getLast h ∧
    ((UndoManager.create start).undo).1 = none := by
  have hr : (UndoManager.pushAll (UndoManager.create start) l).redoStack = [] :=
    pushAll_redo_nil _ _ rfl
  have hc : (UndoManager.pushAll (UndoManager.create start) l).current = l.getLast h :=
    pushAll_current _ _ h
  constructor
  · rcases hM : UndoManager.pushAll (UndoManager.create start) l with ⟨c, U, R⟩
    rw [hM] at hr hc
    dsimp at hr hc
    subst hr
    rw [redo_undo_roundtrip]
    exact hc
  · rfl

/-- Witness for C8 at the sequence `[1, 2, 3]` pushed onto a fresh
manager. -/
theorem c8_undo_redo_inverse_witness :
    (redoTimes 2 (undoTimes 2
      (UndoManager.pushAll (UndoManager.create (0 : Nat)) [1, 2, 3]))).current = 3 ∧
    ((UndoManager.create (0 : Nat)).undo).1 = none := by
  have h := c8_undo_redo_inverse (0 : Nat) [1, 2, 3] (by decide)
  simpa using h

end VocalisFlows

namespace VocalisFlows

/-- **C10.**  `duplicateNode` returns a node whose id is distinct from
every id in `allNodes`, whose position is exactly
`(x + 100, y + 20)`, and whose data agrees with the original in every field
except `label`, which receives a copy suffix (`"<base> copy"` or
`"<base> copy <k>"`); in particular all routing references inside
`functions` are preserved verbatim. -/
theorem c10_duplicate_node (node : FlowNode) (allNodes : List FlowNode) :
    (duplicateNode node allNodes).id ∉ allNodes.map (fun n => n.id) ∧
    (duplicateNode node allNodes).position =
      ⟨node.position.x + 100, node.position.y + 20⟩ ∧
    (duplicateNode node allNodes).type = node.type ∧
    (duplicateNode node allNodes).data.functions = node.data.functions ∧
    (duplicateNode node allNodes).data.type = node.data.type ∧
    (duplicateNode node allNodes).data.role_messages = node.data.role_messages ∧
    (duplicateNode node allNodes).data.task_messages = node.data.task_messages ∧
    (duplicateNode node allNodes).data.pre_actions = node.data.pre_actions ∧
    (duplicateNode node allNodes).data.post_actions = node.data.post_actions ∧
    (duplicateNode node allNodes).data.context_strategy = node.data.context_strategy ∧
    (duplicateNode node allNodes).data.respond_immediately =
      node.data.respond_immediately ∧
    (duplicateNode node allNodes).data.action = node.data.action ∧
    (duplicateNode node allNodes).data.conditionCount = node.data.conditionCount ∧
    (duplicateNode node allNodes).data.sourceNodeId = node.data.sourceNodeId ∧
    (duplicateNode node allNodes).data.functionName = node.data.functionName ∧
    (∃ base, (duplicateNode node allNodes).data.label = some (base ++ " copy") ∨
      ∃ k : Nat, (duplicateNode node allNodes).data.label =
        some (base ++ " copy " ++ toString k)) := by
  refine ⟨?_, rfl, rfl, rfl, rfl, rfl, rfl, rfl, rfl, rfl, rfl, rfl, rfl, rfl, rfl, ?_⟩
  · show generateNodeIdFromLabel _ (allNodes.map fun n => n.id) ∉ _
    exact generateNodeIdFromLabel_fresh _ _
  · obtain ⟨base, h⟩ := generateCopyLabel_shape (labelOr node.data.label "Node")
      ((allNodes.map fun n => labelOr n.data.label "").filter fun s => s ≠ "")
    refine ⟨base, ?_⟩
    rcases h with h | ⟨k, h⟩
    · exact Or.inl (by rw [show (duplicateNode node allNodes).data.label =
        some (generateCopyLabel (labelOr node.data.label "Node")
          ((allNodes.map fun n => labelOr n.data.label "").filter fun s => s ≠ ""))
        from rfl, h])
    · exact Or.inr ⟨k, by rw [show (duplicateNode node allNodes).data.label =
        some (generateCopyLabel (labelOr node.data.label "Node")
          ((allNodes.map fun n => labelOr n.data.label "").filter fun s => s ≠ ""))
        from rfl, h]⟩

/-- `renameFunctionRefs` realises the C5 condition contract. -/
theorem renamedCondition_of (oldId newId : String) (c : DecisionConditionJson) :
    RenamedCondition oldId newId c
      { c with next_node_id := renameRef oldId newId c.next_node_id } :=
  ⟨rfl, rfl, rfl⟩

/-- The decision part of `renameFunctionRefs` realises the C5 decision
contract. -/
theorem renamedDecision_of (oldId newId : String) (d : DecisionJson) :
    RenamedDecision oldId newId d
      { d with
          default_next_node_id := renameRef oldId newId d.default_next_node_id
          conditions := d.conditions.map fun c =>
            { c with next_node_id := renameRef oldId newId c.next_node_id } } := by
  refine ⟨rfl, rfl, rfl, by simp, ?_⟩
  intro k c hk
  refine ⟨_, ?_, renamedCondition_of oldId newId c⟩
  rw [List.getElem?_map, hk]
  rfl

/-- `renameFunctionRefs` realises the C5 function contract. -/
theorem renamedFunction_of (oldId newId : String) (f : FlowFunctionJson) :
    RenamedFunction oldId newId f (renameFunctionRefs oldId newId f) := by
  refine ⟨rfl, rfl, rfl, rfl, ?_, ?_⟩
  · show f.next_node_id.map (renameRef oldId newId) = _
    cases hnn : f.next_node_id with
    | none => simp
    | some t => by_cases ht : t = oldId <;> simp [renameRef, ht]
  · cases hd : f.decision with
    | none =>
        refine Or.inl ⟨rfl, ?_⟩
        show f.decision.map _ = none
        rw [hd]
        rfl
    | some d =>
        refine Or.inr ⟨d, _, rfl, ?_, renamedDecision_of oldId newId d⟩
        show f.decision.map _ = some _
        rw [hd]
        rfl

/-- The rewrite of one data record's functions list realises the C5
per-function contract pointwise. -/
theorem renamedData_aux (oldId newId : String) (d0 : FlowNodeData) :
    ((d0.functions.map fun fns =>
      fns.map (renameFunctionRefs oldId newId)).getD []).length =
        (d0.functions.getD []).length ∧
    (d0.functions.map fun fns =>
      fns.map (renameFunctionRefs oldId newId)).isSome = d0.functions.isSome ∧
    ∀ (j : Nat) (f : FlowFunctionJson), (d0.functions.getD [])[j]? = some f →
      ∃ f', ((d0.functions.map fun fns =>
          fns.map (renameFunctionRefs oldId newId)).getD [])[j]? = some f' ∧
        RenamedFunction oldId newId f f' := by
  cases hf : d0.functions with
  | none =>
      refine ⟨by simp, by simp, ?_⟩
      intro j f hj
      simp at hj
  | some fns =>
      refine ⟨by simp, by simp, ?_⟩
      intro j f hj
      simp only [Option.getD_some] at hj
      refine ⟨renameFunctionRefs oldId newId f, ?_,
        renamedFunction_of oldId newId f⟩
      show (fns.map (renameFunctionRefs oldId newId))[j]? =
        some (renameFunctionRefs oldId newId f)
      rw [List.getElem?_map, hj]
      rfl

/-- The composite of the id rename and the reference rewrite realises the
C5 per-node contract. -/
theorem renamedNode_of (oldId newId : String) (n : FlowNode) :
    RenamedNode oldId newId n
      (renameNodeRefs oldId newId (renameNodeId oldId newId n)) := by
  have aux := renamedData_aux oldId newId n.data
  have hcomp : renameNodeRefs oldId newId (renameNodeId oldId newId n) =
      ⟨(if n.id = PNodeId.plain oldId then PNodeId.plain newId else n.id),
        n.type, n.position,
        { n.data with functions := Option.map (fun fns => fns.map (renameFunctionRefs oldId newId)) n.data.functions }⟩ := by
    unfold renameNodeId renameNodeRefs
    by_cases h : n.id = PNodeId.plain oldId <;> simp [h]
  rw [hcomp]
  exact ⟨rfl, rfl, rfl, rfl, rfl, rfl, rfl, rfl, rfl, rfl, rfl, rfl, rfl, rfl,
    rfl, aux.1, aux.2.1, aux.2.2⟩

/-- **C5.**  Renaming node `A` to `A2` through `onRenameNode` rewrites, on
every node, every function-level `next_node_id`, every decision condition
target and every `decision.default_next_node_id` equal to `A` to `A2`, and
changes nothing else: ids other than `A` and all other node, data, function,
decision and condition fields are untouched. -/
theorem c5_rename_cascade (nodes : List FlowNode) (edges : List FlowEdge)
    (oldId newId : String) (i : Nat) (n : FlowNode)
    (hn : nodes[i]? = some n) :
    (onRenameNode nodes edges oldId newId).1.length = nodes.length ∧
    ∃ n', ((onRenameNode nodes edges oldId newId).1)[i]? = some n' ∧
      RenamedNode oldId newId n n' := by
  constructor
  · show ((nodes.map (renameNodeId oldId newId)).map
      (renameNodeRefs oldId newId)).length = nodes.length
    simp
  · refine ⟨_, ?_, renamedNode_of oldId newId n⟩
    show ((nodes.map (renameNodeId oldId newId)).map
      (renameNodeRefs oldId newId))[i]? = _
    rw [List.getElem?_map, List.getElem?_map, hn]
    rfl

/-- Witness for C5: renaming `b` to `b2` on a one-node canvas whose
function routes to `b` both plainly and through its decision. -/
theorem c5_rename_cascade_witness :
    (onRenameNode [c5ExampleNode] [] "b" "b2").1.length =
      ([c5ExampleNode] : List FlowNode).length ∧
    ∃ n', ((onRenameNode [c5ExampleNode] [] "b" "b2").1)[0]? = some n' ∧
      RenamedNode "b" "b2" c5ExampleNode n' :=
  c5_rename_cascade [c5ExampleNode] [] "b" "b2" 0 c5ExampleNode rfl

/-- `updateFirst` keeps the list length. -/
theorem updateFirst_length (p : α → Bool) (g : α → α) (l : List α) :
    (updateFirst p g l).length = l.length := by
  induction l with
  | nil => rfl
  | cons x xs ih =>
      unfold updateFirst
      split <;> simp [ih]

/-- `updateFirst` at the first matching index `i`: the element at `i` is
replaced by its image and every other position is untouched. -/
theorem updateFirst_getElem? (p : α → Bool) (g : α → α) (l : List α)
    (i : Nat) (a : α) (ha : l[i]? = some a) (hpa : p a = true)
    (hprev : ∀ k, k < i → ∀ b, l[k]? = some b → p b = false) :
    (updateFirst p g l)[i]? = some (g a) ∧
    ∀ k, k ≠ i → (updateFirst p g l)[k]? = l[k]? := by
  induction l generalizing i with
  | nil => simp at ha
  | cons x xs ih =>
      cases i with
      | zero =>
          have hax : x = a := by simpa using ha
          subst hax
          unfold updateFirst
          rw [if_pos hpa]
          refine ⟨by simp, ?_⟩
          intro k hk
          cases k with
          | zero => exact absurd rfl hk
          | succ m => simp
      | succ i' =>
          have hx : p x = false := hprev 0 (Nat.succ_pos i') x (by simp)
          have ha' : xs[i']? = some a := by simpa using ha
          have hprev' : ∀ k, k < i' → ∀ b, xs[k]? = some b → p b = false := by
            intro k hk b hb
            exact hprev (k + 1) (Nat.succ_lt_succ hk) b (by simpa using hb)
          have ih' := ih i' ha' hprev'
          unfold updateFirst
          rw [if_neg (by simp [hx])]
          refine ⟨by simpa using ih'.1, ?_⟩
          intro k hk
          cases k with
          | zero => simp
          | succ m =>
              have : m ≠ i' := by
                intro h
                exact hk (by rw [h])
              simpa using ih'.2 m this

/-- Extracting the drag info of a synthetic decision node succeeds and
recovers its `(sourceNodeId, functionName)` pair. -/
theorem extractDecisionNodeFromChange_synth (sid : PNodeId) (fname : String)
    (p : Position) (nodes : List FlowNode) (dnode : FlowNode)
    (hfind : nodes.find? (fun n => n.id = PNodeId.synth sid fname) = some dnode)
    (htype : dnode.type = .decision) :
    extractDecisionNodeFromChange (PNodeId.synth sid fname) (some p) nodes =
      some ⟨sid, fname, p⟩ := by
  unfold extractDecisionNodeFromChange
  rw [hfind]
  have hid : dnode.id = PNodeId.synth sid fname := by
    have := List.find?_some hfind
    simpa using this
  dsimp only
  rw [if_neg (by simp [htype]), hid]
  rfl

/-- **C6.**  A settled drag (`dragging === false`, position present) of a
synthetic decision node writes the drop position onto the owning function's
`decision.decision_node_position` in the same synchronous update, and
changes nothing else: every other node, every other function and every
other field of the owning node and function are untouched. -/
theorem c6_drag_writeback
    (nodes : List FlowNode) (sid : PNodeId) (fname : String) (p : Position)
    (dnode s : FlowNode) (i j : Nat) (g : FlowFunctionJson) (dec : DecisionJson)
    (hfind : nodes.find? (fun n => n.id = PNodeId.synth sid fname) = some dnode)
    (htype : dnode.type = .decision)
    (hs : nodes[i]? = some s) (hsid : s.id = sid)
    (hprev : ∀ k, k < i → ∀ b, nodes[k]? = some b → b.id ≠ sid)
    (hg : (nodeFunctions s)[j]? = some g) (hgname : g.name = fname)
    (hgdec : g.decision = some dec)
    (hprevf : ∀ k, k < j → ∀ b, (nodeFunctions s)[k]? = some b →
      ¬(b.name = fname ∧ b.decision.isSome = true)) :
    (applyDecisionPositionChanges
      [NodeChange.position (PNodeId.synth sid fname) false (some p)]
      nodes).length = nodes.length ∧
    (∀ k, k ≠ i → (applyDecisionPositionChanges
      [NodeChange.position (PNodeId.synth sid fname) false (some p)]
      nodes)[k]? = nodes[k]?) ∧
    ∃ s', (applyDecisionPositionChanges
      [NodeChange.position (PNodeId.synth sid fname) false (some p)]
      nodes)[i]? = some s' ∧ DecisionDragSpec s j g dec p s' := by
  have hres : applyDecisionPositionChanges
      [NodeChange.position (PNodeId.synth sid fname) false (some p)] nodes =
      updateFirst (fun n => n.id = sid)
        (writeDecisionPositionOnNode fname p) nodes := by
    show (match extractDecisionNodeFromChange (PNodeId.synth sid fname) (some p)
        nodes with
      | none => nodes
      | some info =>
          updateFirst (fun n => n.id = info.sourceNodeId)
            (writeDecisionPositionOnNode info.functionName info.position)
            nodes) = _
    rw [extractDecisionNodeFromChange_synth sid fname p nodes dnode hfind htype]
  have hup := updateFirst_getElem? (fun n => n.id = sid)
    (writeDecisionPositionOnNode fname p) nodes i s hs
    (by simp [hsid])
    (by
      intro k hk b hb
      simpa using hprev k hk b hb)
  refine ⟨?_, ?_, ?_⟩
  · rw [hres]
    exact updateFirst_length _ _ _
  · intro k hk
    rw [hres]
    exact hup.2 k hk
  · refine ⟨_, by rw [hres]; exact hup.1, ?_⟩
    have hfup := updateFirst_getElem?
      (fun f => f.name = fname ∧ f.decision.isSome)
      (setDecisionPosition p)
      (nodeFunctions s) j g hg
      (by simp [hgname, hgdec])
      (by
        intro k hk b hb
        have := hprevf k hk b hb
        simpa using this)
    refine ⟨rfl, rfl, rfl, rfl, rfl, rfl, rfl, rfl, rfl, rfl, rfl, rfl, rfl,
      rfl, rfl, writeDecisionPosition fname p (nodeFunctions s), rfl, ?_, ?_, ?_⟩
    · exact updateFirst_length _ _ _
    · intro k hk
      exact hfup.2 k hk
    · rw [show writeDecisionPosition fname p (nodeFunctions s) =
        updateFirst (fun f => f.name = fname ∧ f.decision.isSome)
          (setDecisionPosition p) (nodeFunctions s) from rfl, hfup.1]
      rw [show setDecisionPosition p g =
        { g with decision := g.decision.map fun d =>
          { d with decision_node_position := some p } } from rfl, hgdec]
      rfl

/-- Witness for C6: dragging the synthetic decision node of
`c6SourceFunction` to `(5, 6)`. -/
theorem c6_drag_writeback_witness :
    (applyDecisionPositionChanges
      [NodeChange.position (PNodeId.synth (.plain "a") "route") false
        (some ⟨5, 6⟩)] [c6SourceNode, c6DecisionNode]).length =
      ([c6SourceNode, c6DecisionNode] : List FlowNode).length ∧
    (∀ k, k ≠ 0 → (applyDecisionPositionChanges
      [NodeChange.position (PNodeId.synth (.plain "a") "route") false
        (some ⟨5, 6⟩)] [c6SourceNode, c6DecisionNode])[k]? =
      ([c6SourceNode, c6DecisionNode] : List FlowNode)[k]?) ∧
    ∃ s', (applyDecisionPositionChanges
      [NodeChange.position (PNodeId.synth (.plain "a") "route") false
        (some ⟨5, 6⟩)] [c6SourceNode, c6DecisionNode])[0]? = some s' ∧
      DecisionDragSpec c6SourceNode 0 c6SourceFunction c6Decision ⟨5, 6⟩ s' :=
  c6_drag_writeback [c6SourceNode, c6DecisionNode] (.plain "a") "route" ⟨5, 6⟩
    c6DecisionNode c6SourceNode 0 0 c6SourceFunction c6Decision
    (by decide) (by decide) rfl rfl
    (fun k hk => absurd hk (Nat.not_lt_zero k))
    rfl rfl rfl
    (fun k hk => absurd hk (Nat.not_lt_zero k))

/-- Every node created by the synthesizer is a decision node with the
projection data of its `(node, function)` pair. -/
theorem decisionNodesToCreate_mem (nodes : List FlowNode) (c : FlowNode)
    (hc : c ∈ decisionNodesToCreate nodes) :
    ∃ p ∈ decisionPairs nodes,
      nodes.find? (fun m => m.id = generateDecisionNodeId p.1.id p.2.name) = none ∧
      c = getDecisionNodeData p.1.id p.1.position p.2 := by
  unfold decisionNodesToCreate at hc
  rw [List.mem_filterMap] at hc
  obtain ⟨p, hp, hbody⟩ := hc
  refine ⟨p, hp, ?_⟩
  dsimp only at hbody
  split at hbody
  · exact absurd hbody (by simp)
  · rename_i heq
    simp only [Option.some.injEq] at hbody
    exact ⟨heq, hbody.symm⟩

/-- Created nodes always carry the `decision` node type. -/
theorem decisionNodesToCreate_type (nodes : List FlowNode) (c : FlowNode)
    (hc : c ∈ decisionNodesToCreate nodes) : c.type = .decision := by
  obtain ⟨p, _, _, hcdef⟩ := decisionNodesToCreate_mem nodes c hc
  rw [hcdef]
  rfl

/-- Filtering out a class of elements that the fresh-append step only ever
adds leaves the accumulator's filtrate unchanged. -/
theorem appendFreshNodes_filter (q : FlowNode → Bool) (cs : List FlowNode)
    (hq : ∀ c ∈ cs, q c = false) :
    ∀ acc : List FlowNode,
      (appendFreshNodes acc cs).filter q = acc.filter q := by
  induction cs with
  | nil => intro acc; rfl
  | cons c cs ih =>
      intro acc
      unfold appendFreshNodes
      split
      · exact ih (fun x hx => hq x (List.mem_cons_of_mem c hx)) acc
      · rw [ih (fun x hx => hq x (List.mem_cons_of_mem c hx)) (acc ++ [c]),
          List.filter_append]
        simp [hq c (List.mem_cons_self c cs)]

/-- On a document node list (no decision nodes) the synthesizer only adds
synthetic nodes: its non-decision filtrate is the original list. -/
theorem reconcile_filter_of_regular (ns : List FlowNode)
    (hall : ∀ n ∈ ns, n.type ≠ .decision) :
    (reconcileDecisionNodes ns).filter (fun n => n.type ≠ .decision) = ns := by
  have hself : ns.filter (fun n => n.type ≠ .decision) = ns :=
    List.filter_eq_self.mpr (fun a ha => by simpa using hall a ha)
  unfold reconcileDecisionNodes
  split
  · exact hself
  · unfold reconcileCore
    rw [appendFreshNodes_filter _ _
      (fun c hc => by simp [decisionNodesToCreate_type ns c hc])]
    have hfil : reconcileFiltered ns = ns := by
      unfold reconcileFiltered
      refine List.filter_eq_self.mpr (fun a ha => ?_)
      simp only [decide_eq_true_eq]
      intro hdec
      exact absurd hdec (hall a ha)
    have hmapped : reconcileMapped ns = ns := by
      unfold reconcileMapped
      rw [hfil]
      calc ns.map _ = ns.map id :=
            List.map_congr_left (fun a ha => by
              unfold reconcileTransform
              rw [if_neg (hall a ha)]
              rfl)
        _ = ns := List.map_id ns
    rw [hmapped, hself]

/-- A structurally valid document has no decision-typed node. -/
theorem validateFlowJson_no_decision (d : FlowJson)
    (h : (validateFlowJson d).valid = true) :
    ∀ n ∈ d.nodes, n.type ≠ .decision := by
  intro n hn hdec
  unfold validateFlowJson at h
  rw [show (⟨_, _⟩ : ValidationResult).valid = _ from rfl, List.isEmpty_iff,
    List.append_eq_nil] at h
  have h2 := h.2
  rw [List.filterMap_eq_nil_iff] at h2
  have := h2 n hn
  rw [if_pos hdec] at this
  exact Option.some_ne_none _ this

/-- The edge deriver only reads non-decision nodes, so reconciliation does
not change the derived edge set of a document node list. -/
theorem derive_reconcile_of_regular (ns : List FlowNode)
    (hall : ∀ n ∈ ns, n.type ≠ .decision) :
    deriveEdgesFromNodes (reconcileDecisionNodes ns) = deriveEdgesFromNodes ns := by
  unfold deriveEdgesFromNodes
  rw [reconcile_filter_of_regular ns hall,
    List.filter_eq_self.mpr (fun a ha => by simpa using hall a ha)]

/-- **C1 (amended).**  For every valid document `d`,
`toDocument(toPresentation(d))` reproduces `d.nodes` verbatim and populates
the `edges` cache with the derived edge set; the top-level `meta`, `context`
and `global_functions` are *not* carried through the presentation graph and
come back unset. -/
theorem c1_round_trip_amended (d : FlowJson) (h : validFlowJson d) :
    (flowRoundTrip d).nodes = d.nodes ∧
    (flowRoundTrip d).edges = some (deriveEdgesFromNodes d.nodes) ∧
    (flowRoundTrip d).meta = none ∧
    (flowRoundTrip d).context = none ∧
    (flowRoundTrip d).global_functions = none := by
  have hall := validateFlowJson_no_decision d h.1
  refine ⟨?_, ?_, rfl, rfl, rfl⟩
  · show (reconcileDecisionNodes d.nodes).filter (fun n => n.type ≠ .decision) =
      d.nodes
    exact reconcile_filter_of_regular d.nodes hall
  · show some (deriveEdgesFromNodes (reconcileDecisionNodes d.nodes)) = _
    rw [derive_reconcile_of_regular d.nodes hall]

/-- **C1 (counterexample).**  The round trip is *not* deep-equal to the
input modulo default-populated optional fields: `c1Doc` is valid and its
present `meta` does not survive the round trip. -/
theorem c1_round_trip_counterexample :
    validFlowJson c1Doc ∧
    (flowRoundTrip c1Doc).meta ≠ c1Doc.meta ∧
    flowRoundTrip c1Doc ≠ c1Doc := by
  decide

/-- Witness for the amended C1 at the concrete valid document `c1Doc`. -/
theorem c1_round_trip_witness :
    (flowRoundTrip c1Doc).nodes = c1Doc.nodes ∧
    (flowRoundTrip c1Doc).edges = some (deriveEdgesFromNodes c1Doc.nodes) ∧
    (flowRoundTrip c1Doc).meta = none ∧
    (flowRoundTrip c1Doc).context = none ∧
    (flowRoundTrip c1Doc).global_functions = none :=
  c1_round_trip_amended c1Doc (by decide)

/-- Characterisation of the pairs scanned by the synthesizer. -/
theorem mem_decisionPairs (nodes : List FlowNode)
    (p : FlowNode × FlowFunctionJson) :
    p ∈ decisionPairs nodes ↔
      p.1 ∈ nodes ∧ p.1.type ≠ .decision ∧ p.2 ∈ nodeFunctions p.1 ∧
        p.2.decision.isSome = true := by
  unfold decisionPairs
  rw [List.mem_flatMap]
  constructor
  · rintro ⟨n, hn, hmem⟩
    rw [List.mem_map] at hmem
    obtain ⟨f, hf, hpf⟩ := hmem
    obtain rfl := hpf.symm
    rw [List.mem_filter] at hn hf
    exact ⟨hn.1, by simpa using hn.2, hf.1, hf.2⟩
  · rintro ⟨h1, h2, h3, h4⟩
    refine ⟨p.1, List.mem_filter.mpr ⟨h1, by simpa using h2⟩, ?_⟩
    rw [List.mem_map]
    exact ⟨p.2, List.mem_filter.mpr ⟨h3, h4⟩, rfl⟩

/-- Characterisation of the wanted synthetic ids. -/
theorem mem_wantedDecisionIds (nodes : List FlowNode) (did : PNodeId) :
    did ∈ wantedDecisionIds nodes ↔
      ∃ p ∈ decisionPairs nodes, did = generateDecisionNodeId p.1.id p.2.name := by
  unfold wantedDecisionIds
  rw [List.mem_map]
  constructor
  · rintro ⟨p, hp, h⟩
    exact ⟨p, hp, h.symm⟩
  · rintro ⟨p, hp, h⟩
    exact ⟨p, hp, h.symm⟩

/-- A successful `Map.get` returns a stored pair. -/
theorem lookupById_mem (l : List (PNodeId × FlowNode)) (i : PNodeId)
    (u : FlowNode) (h : lookupById l i = some u) : (i, u) ∈ l := by
  induction l with
  | nil => simp [lookupById] at h
  | cons kv rest ih =>
      unfold lookupById at h
      split at h
      · rename_i hk
        rw [Option.some.injEq] at h
        subst h
        rw [← hk]
        exact List.mem_cons_self _ _
      · exact List.mem_cons_of_mem _ (ih h)

/-- A failed `Map.get` means no stored pair carries the key. -/
theorem lookupById_eq_none (l : List (PNodeId × FlowNode)) (i : PNodeId)
    (h : lookupById l i = none) : ∀ kv ∈ l, kv.1 ≠ i := by
  induction l with
  | nil =>
      intro kv hkv
      cases hkv
  | cons kv0 rest ih =>
      unfold lookupById at h
      split at h
      · exact absurd h (Option.some_ne_none _)
      · rename_i hk
        intro kv hkv
        rcases List.mem_cons.mp hkv with rfl | hkv'
        · exact hk
        · exact ih h kv hkv'

/-- Characterisation of the update-map entries: each holds an existing
decision node whose projected data changed, refreshed in place. -/
theorem decisionNodesToUpdate_value (nodes : List FlowNode)
    (kv : PNodeId × FlowNode) (h : kv ∈ decisionNodesToUpdate nodes) :
    ∃ p ∈ decisionPairs nodes, ∃ ex,
      ex ∈ nodes ∧
      ex.id = generateDecisionNodeId p.1.id p.2.name ∧
      kv.1 = generateDecisionNodeId p.1.id p.2.name ∧
      kv.2 = { ex with data := (getDecisionNodeData p.1.id p.1.position p.2).data } ∧
      decisionDataChanged ex.data
        (getDecisionNodeData p.1.id p.1.position p.2).data = true := by
  unfold decisionNodesToUpdate at h
  rw [List.mem_filterMap] at h
  obtain ⟨p, hp, hbody⟩ := h
  dsimp only at hbody
  split at hbody
  · exact absurd hbody (by simp)
  · rename_i ex hfind
    split at hbody
    · rename_i hchanged
      rw [Option.some.injEq] at hbody
      subst hbody
      refine ⟨p, hp, ex, List.mem_of_find?_eq_some hfind, ?_, rfl, rfl, hchanged⟩
      have := List.find?_some hfind
      simpa using this
    · exact absurd hbody (by simp)

/-- A changed projection really enters the update map. -/
theorem decisionNodesToUpdate_intro (nodes : List FlowNode)
    (p : FlowNode × FlowFunctionJson) (hp : p ∈ decisionPairs nodes)
    (ex : FlowNode)
    (hfind : nodes.find?
      (fun m => m.id = generateDecisionNodeId p.1.id p.2.name) = some ex)
    (hch : decisionDataChanged ex.data
      (getDecisionNodeData p.1.id p.1.position p.2).data = true) :
    (generateDecisionNodeId p.1.id p.2.name,
      { ex with data := (getDecisionNodeData p.1.id p.1.position p.2).data }) ∈
      decisionNodesToUpdate nodes := by
  unfold decisionNodesToUpdate
  rw [List.mem_filterMap]
  refine ⟨p, hp, ?_⟩
  dsimp only
  rw [hfind]
  dsimp only
  rw [if_pos hch]

/-- A wanted projection with no existing node really enters the create
list. -/
theorem decisionNodesToCreate_intro (nodes : List FlowNode)
    (p : FlowNode × FlowFunctionJson) (hp : p ∈ decisionPairs nodes)
    (hfind : nodes.find?
      (fun m => m.id = generateDecisionNodeId p.1.id p.2.name) = none) :
    getDecisionNodeData p.1.id p.1.position p.2 ∈ decisionNodesToCreate nodes := by
  unfold decisionNodesToCreate
  rw [List.mem_filterMap]
  refine ⟨p, hp, ?_⟩
  dsimp only
  rw [hfind]

/-- The fresh-append step keeps the accumulator. -/
theorem appendFreshNodes_subset (cs : List FlowNode) :
    ∀ acc : List FlowNode, ∀ m ∈ acc, m ∈ appendFreshNodes acc cs := by
  induction cs with
  | nil =>
      intro acc m hm
      exact hm
  | cons c cs ih =>
      intro acc m hm
      unfold appendFreshNodes
      split
      · exact ih acc m hm
      · exact ih (acc ++ [c]) m (List.mem_append_left _ hm)

/-- The fresh-append step only produces accumulator or candidate nodes. -/
theorem appendFreshNodes_mem (cs : List FlowNode) :
    ∀ acc m, m ∈ appendFreshNodes acc cs → m ∈ acc ∨ m ∈ cs := by
  induction cs with
  | nil =>
      intro acc m hm
      exact Or.inl hm
  | cons c cs ih =>
      intro acc m hm
      unfold appendFreshNodes at hm
      split at hm
      · rcases ih acc m hm with h | h
        · exact Or.inl h
        · exact Or.inr (List.mem_cons_of_mem c h)
      · rcases ih (acc ++ [c]) m hm with h | h
        · rcases List.mem_append.mp h with h' | h'
          · exact Or.inl h'
          · exact Or.inr (List.mem_cons.mpr (Or.inl (by simpa using h')))
        · exact Or.inr (List.mem_cons_of_mem c h)

/-- Every candidate's id is represented in the fresh-append result. -/
theorem appendFreshNodes_covers (cs : List FlowNode) :
    ∀ acc, ∀ c ∈ cs, ∃ m, m ∈ appendFreshNodes acc cs ∧ m.id = c.id ∧
      (m ∈ acc ∨ m ∈ cs) := by
  induction cs with
  | nil =>
      intro acc c hc
      cases hc
  | cons c0 cs ih =>
      intro acc c hc
      rcases List.mem_cons.mp hc with rfl | hc'
      · unfold appendFreshNodes
        split
        · rename_i hany
          rw [List.any_eq_true] at hany
          obtain ⟨m, hm, hmid⟩ := hany
          exact ⟨m, appendFreshNodes_subset cs acc m hm, by simpa using hmid,
            Or.inl hm⟩
        · exact ⟨c, appendFreshNodes_subset cs (acc ++ [c]) c (by simp), rfl,
            Or.inr (List.mem_cons_self c cs)⟩
      · unfold appendFreshNodes
        split
        · obtain ⟨m, hm, hid, hor⟩ := ih acc c hc'
          exact ⟨m, hm, hid, hor.imp id (List.mem_cons_of_mem c0)⟩
        · obtain ⟨m, hm, hid, hor⟩ := ih (acc ++ [c0]) c hc'
          refine ⟨m, hm, hid, ?_⟩
          rcases hor with h | h
          · rcases List.mem_append.mp h with h' | h'
            · exact Or.inl h'
            · exact Or.inr (List.mem_cons.mpr (Or.inl (by simpa using h')))
          · exact Or.inr (List.mem_cons_of_mem c0 h)

/-- The fresh-append step preserves id uniqueness. -/
theorem appendFreshNodes_nodup (cs : List FlowNode) :
    ∀ acc, ((acc.map fun n => n.id).Nodup) →
      ((appendFreshNodes acc cs).map fun n => n.id).Nodup := by
  induction cs with
  | nil =>
      intro acc h
      exact h
  | cons c cs ih =>
      intro acc h
      unfold appendFreshNodes
      split
      · exact ih acc h
      · rename_i hany
        refine ih (acc ++ [c]) ?_
        rw [List.map_append, List.nodup_append]
        refine ⟨h, List.nodup_singleton _, ?_⟩
        intro x hx hx'
        rw [List.mem_map] at hx
        obtain ⟨m, hm, hmid⟩ := hx
        rw [List.any_eq_true] at hany
        have hxc : x = c.id := by simpa using hx'
        exact hany ⟨m, hm, by simp [hmid, hxc]⟩

/-- With pairwise distinct ids, the id determines the node. -/
theorem nodes_id_inj (l : List FlowNode)
    (hids : ((l.map fun n => n.id).Nodup)) :
    ∀ a ∈ l, ∀ b ∈ l, a.id = b.id → a = b := by
  intro a ha b hb h
  exact List.inj_on_of_nodup_map hids ha hb h

/-- A composite id always parses back. -/
theorem parse_generate_isSome (src : PNodeId) (f : String) :
    (parseDecisionNodeId (generateDecisionNodeId src f)).isSome = true := rfl

/-- The update step never changes a node's id. -/
theorem reconcileTransform_id (nodes : List FlowNode) (a : FlowNode) :
    (reconcileTransform nodes a).id = a.id := by
  unfold reconcileTransform
  split
  · split
    · rename_i u heq
      obtain ⟨p, hp, ex, hexn, hexid, hkv1, hkv2, hch⟩ :=
        decisionNodesToUpdate_value nodes (a.id, u) (lookupById_mem _ _ _ heq)
      have h2 : u =
          { ex with data := (getDecisionNodeData p.1.id p.1.position p.2).data } :=
        hkv2
      have h1 : a.id = generateDecisionNodeId p.1.id p.2.name := hkv1
      rw [h2]
      show ex.id = a.id
      rw [hexid, ← h1]
    · rfl
  · rfl

/-- With pairwise distinct ids, the update step also keeps a node's type and
position: only its `data` can change. -/
theorem reconcileTransform_keeps (nodes : List FlowNode)
    (hids : ((nodes.map fun n => n.id).Nodup)) (a : FlowNode) (ha : a ∈ nodes) :
    (reconcileTransform nodes a).type = a.type ∧
    (reconcileTransform nodes a).position = a.position := by
  unfold reconcileTransform
  split
  · split
    · rename_i u heq
      obtain ⟨p, hp, ex, hexn, hexid, hkv1, hkv2, hch⟩ :=
        decisionNodesToUpdate_value nodes (a.id, u) (lookupById_mem _ _ _ heq)
      have h2 : u =
          { ex with data := (getDecisionNodeData p.1.id p.1.position p.2).data } :=
        hkv2
      have h1 : a.id = generateDecisionNodeId p.1.id p.2.name := hkv1
      have hexa : ex = a := nodes_id_inj nodes hids ex hexn a ha (by rw [hexid, ← h1])
      subst hexa
      rw [h2]
      exact ⟨rfl, rfl⟩
    · exact ⟨rfl, rfl⟩
  · exact ⟨rfl, rfl⟩

/-- The reconciliation gate is harmless: when there is nothing to create,
update or remove, the updater body would return the node list unchanged, so
skipping it loses nothing. -/
theorem reconcile_eq_core (nodes : List FlowNode) :
    reconcileDecisionNodes nodes = reconcileCore nodes := by
  unfold reconcileDecisionNodes
  split
  · rename_i hgate
    obtain ⟨hc, hu, ho⟩ := hgate
    rw [List.isEmpty_iff] at hc hu
    unfold reconcileCore
    rw [hc]
    show nodes = reconcileMapped nodes
    unfold reconcileMapped
    have hfil : reconcileFiltered nodes = nodes := by
      unfold reconcileFiltered
      refine List.filter_eq_self.mpr (fun a ha => ?_)
      simp only [decide_eq_true_eq]
      intro hdec
      by_contra hnot
      apply ho
      unfold hasOrphanedDecisionNodes
      rw [List.any_eq_true]
      exact ⟨a, ha, decide_eq_true ⟨hdec, hnot⟩⟩
    rw [hfil]
    symm
    calc nodes.map (reconcileTransform nodes) = nodes.map id :=
          List.map_congr_left (fun a _ => by
            unfold reconcileTransform
            rw [hu]
            split
            · rfl
            · rfl)
      _ = nodes := List.map_id nodes
  · rfl

/-- With pairwise distinct input ids, one reconciliation run produces
pairwise distinct ids again. -/
theorem reconcileCore_ids_nodup (nodes : List FlowNode)
    (hids : ((nodes.map fun n => n.id).Nodup)) :
    (((reconcileCore nodes).map fun n => n.id).Nodup) := by
  unfold reconcileCore
  apply appendFreshNodes_nodup
  have hmm : ((reconcileMapped nodes).map fun n => n.id) =
      ((reconcileFiltered nodes).map fun n => n.id) := by
    unfold reconcileMapped
    rw [List.map_map]
    exact List.map_congr_left (fun a _ => reconcileTransform_id nodes a)
  rw [hmm]
  refine List.Nodup.sublist ?_ hids
  unfold reconcileFiltered
  exact (List.filter_sublist nodes).map _

/-- Pushing the orphan filter, the update map and the fresh-node append past
a non-decision filter: the regular nodes pass through one reconciliation run
untouched. -/
theorem reconcileMapped_filter_aux (nodes : List FlowNode)
    (hids : ((nodes.map fun n => n.id).Nodup)) :
    ∀ l : List FlowNode, (∀ a ∈ l, a ∈ nodes) →
      (((l.filter fun n => n.type = NodeType.decision →
            n.id ∈ wantedDecisionIds nodes).map
          (reconcileTransform nodes)).filter fun n => n.type ≠ NodeType.decision) =
        l.filter fun n => n.type ≠ NodeType.decision := by
  intro l
  induction l with
  | nil => intro _; rfl
  | cons a l ih =>
      intro hsub
      have hln : ∀ x ∈ l, x ∈ nodes := fun x hx => hsub x (List.mem_cons_of_mem a hx)
      have han : a ∈ nodes := hsub a (List.mem_cons_self a l)
      by_cases hdec : a.type = NodeType.decision
      · have htype : (reconcileTransform nodes a).type = NodeType.decision :=
          ((reconcileTransform_keeps nodes hids a han).1).trans hdec
        by_cases hsurv : a.id ∈ wantedDecisionIds nodes
        · rw [List.filter_cons,
            if_pos (by simp only [decide_eq_true_eq]; exact fun _ => hsurv),
            List.map_cons, List.filter_cons,
            if_neg (by simp [htype]), List.filter_cons,
            if_neg (by simp [hdec]), ih hln]
        · rw [List.filter_cons,
            if_neg (by simp only [decide_eq_true_eq]; exact fun h => absurd (h hdec) hsurv),
            List.filter_cons, if_neg (by simp [hdec]), ih hln]
      · have hself : reconcileTransform nodes a = a := by
          unfold reconcileTransform
          rw [if_neg hdec]
        rw [List.filter_cons,
          if_pos (by simp only [decide_eq_true_eq]; exact fun h => absurd h hdec),
          List.map_cons, hself, List.filter_cons,
          if_pos (by simp only [decide_eq_true_eq]; exact hdec),
          List.filter_cons,
          if_pos (by simp only [decide_eq_true_eq]; exact hdec), ih hln]

/-- One reconciliation run leaves the non-decision nodes of an id-unique
canvas verbatim (in order). -/
theorem reconcileCore_filter_nondecision (nodes : List FlowNode)
    (hids : ((nodes.map fun n => n.id).Nodup)) :
    ((reconcileCore nodes).filter fun n => n.type ≠ NodeType.decision) =
      nodes.filter fun n => n.type ≠ NodeType.decision := by
  unfold reconcileCore
  rw [appendFreshNodes_filter _ _
    (fun c hc => by simp [decisionNodesToCreate_type nodes c hc])]
  unfold reconcileMapped reconcileFiltered
  exact reconcileMapped_filter_aux nodes hids nodes (fun a ha => ha)

/-- **C9.**  When one synthesizer run touches a node that already exists on
an id-unique canvas, it preserves that node's position (and type): the node
either survives verbatim, or — exactly when its projected data changed — has
its data replaced by the fresh projection of its owning `(node, function)`
pair while keeping its dragged position. -/
theorem c9_update_preserves_position (nodes : List FlowNode)
    (hids : ((nodes.map fun n => n.id).Nodup))
    (ex : FlowNode) (hex : ex ∈ nodes)
    (n : FlowNode) (hn : n ∈ reconcileDecisionNodes nodes)
    (hid : n.id = ex.id) :
    n.position = ex.position ∧ n.type = ex.type ∧
      (n.data = ex.data ∨
        ∃ p ∈ decisionPairs nodes,
          ex.id = generateDecisionNodeId p.1.id p.2.name ∧
          n.data = (getDecisionNodeData p.1.id p.1.position p.2).data ∧
          decisionDataChanged ex.data n.data = true) := by
  have hinj := nodes_id_inj nodes hids
  unfold reconcileDecisionNodes at hn
  split at hn
  · obtain rfl := hinj n hn ex hex hid
    exact ⟨rfl, rfl, Or.inl rfl⟩
  · unfold reconcileCore at hn
    rcases appendFreshNodes_mem _ _ _ hn with hmem | hcreate
    · unfold reconcileMapped at hmem
      rw [List.mem_map] at hmem
      obtain ⟨m, hmf, htr⟩ := hmem
      unfold reconcileFiltered at hmf
      have hmn : m ∈ nodes := (List.mem_filter.mp hmf).1
      unfold reconcileTransform at htr
      split at htr
      · split at htr
        · rename_i u heq
          obtain ⟨p, hp, ex', hex'n, hex'id, hkv1, hkv2, hch⟩ :=
            decisionNodesToUpdate_value nodes (m.id, u) (lookupById_mem _ _ _ heq)
          have hu : u =
              { ex' with
                  data := (getDecisionNodeData p.1.id p.1.position p.2).data } :=
            hkv2
          have hchu : decisionDataChanged ex'.data
              (getDecisionNodeData p.1.id p.1.position p.2).data = true := hch
          subst htr
          have hexeq : ex' = ex := by
            refine hinj ex' hex'n ex hex ?_
            rw [← hid, hu]
          subst hexeq
          subst hu
          exact ⟨rfl, rfl, Or.inr ⟨p, hp, hex'id, rfl, hchu⟩⟩
        · subst htr
          obtain rfl := hinj m hmn ex hex hid
          exact ⟨rfl, rfl, Or.inl rfl⟩
      · subst htr
        obtain rfl := hinj m hmn ex hex hid
        exact ⟨rfl, rfl, Or.inl rfl⟩
    · obtain ⟨p, hp, hfind, hcdef⟩ := decisionNodesToCreate_mem nodes n hcreate
      have hexid : ex.id = generateDecisionNodeId p.1.id p.2.name := by
        rw [← hid, hcdef]
        rfl
      have hnone := List.find?_eq_none.mp hfind ex hex
      simp only [decide_eq_true_eq] at hnone
      exact absurd hexid hnone

/-- Witness for C9 at a concrete canvas: the stale decision node dragged to
`(50, 60)` is refreshed in place — re-projected data, same position. -/
theorem c9_update_preserves_position_witness :
    c9Fresh.position = c9Stale.position ∧ c9Fresh.type = c9Stale.type ∧
      (c9Fresh.data = c9Stale.data ∨
        ∃ p ∈ decisionPairs c9Nodes,
          c9Stale.id = generateDecisionNodeId p.1.id p.2.name ∧
          c9Fresh.data = (getDecisionNodeData p.1.id p.1.position p.2).data ∧
          decisionDataChanged c9Stale.data c9Fresh.data = true) :=
  c9_update_preserves_position c9Nodes (by decide) c9Stale (by decide)
    c9Fresh (by decide) (by decide)

/-- **C4.**  One synthesizer run on a canvas with unique ids, in which only
decision nodes carry composite ids, leaves the non-decision nodes verbatim
and makes the decision nodes exact: every decision node traces back through
its composite id and its back-references to a scanned `(node, function with
decision)` pair — so orphans are gone — and every scanned pair owns exactly
one decision node. -/
theorem c4_decision_synthesis_exact (nodes : List FlowNode)
    (hids : ((nodes.map fun n => n.id).Nodup))
    (hsynth : ∀ n ∈ nodes, (parseDecisionNodeId n.id).isSome = true →
      n.type = NodeType.decision) :
    (((reconcileDecisionNodes nodes).filter fun n => n.type ≠ NodeType.decision) =
      nodes.filter fun n => n.type ≠ NodeType.decision) ∧
    (∀ m ∈ reconcileDecisionNodes nodes, m.type = NodeType.decision →
      ∃ p ∈ decisionPairs nodes,
        m.id = generateDecisionNodeId p.1.id p.2.name ∧
        m.data.sourceNodeId = some p.1.id ∧
        m.data.functionName = some p.2.name) ∧
    (∀ p ∈ decisionPairs nodes,
      ∃! m, m ∈ reconcileDecisionNodes nodes ∧ m.type = NodeType.decision ∧
        m.id = generateDecisionNodeId p.1.id p.2.name) := by
  have hco := reconcile_eq_core nodes
  have hinj := nodes_id_inj nodes hids
  have houtinj := nodes_id_inj (reconcileCore nodes) (reconcileCore_ids_nodup nodes hids)
  refine ⟨?_, ?_, ?_⟩
  · rw [hco]
    exact reconcileCore_filter_nondecision nodes hids
  · rw [hco]
    intro m hm hmdec
    rcases appendFreshNodes_mem _ _ _ hm with hmem | hcreate
    · unfold reconcileMapped at hmem
      rw [List.mem_map] at hmem
      obtain ⟨m0, hmf, htr⟩ := hmem
      unfold reconcileFiltered at hmf
      have hm0n : m0 ∈ nodes := (List.mem_filter.mp hmf).1
      unfold reconcileTransform at htr
      split at htr
      · rename_i hm0dec
        split at htr
        · rename_i u heq
          obtain ⟨p, hp, ex, hexn, hexid, hkv1, hkv2, hch⟩ :=
            decisionNodesToUpdate_value nodes (m0.id, u) (lookupById_mem _ _ _ heq)
          have hu : u =
              { ex with
                  data := (getDecisionNodeData p.1.id p.1.position p.2).data } :=
            hkv2
          refine ⟨p, hp, ?_, ?_, ?_⟩
          · rw [← htr, hu]
            exact hexid
          · rw [← htr, hu]
            rfl
          · rw [← htr, hu]
            rfl
        · rename_i heq
          have hm0w : m0.id ∈ wantedDecisionIds nodes := by
            have h2 := (List.mem_filter.mp hmf).2
            simp only [decide_eq_true_eq] at h2
            exact h2 hm0dec
          obtain ⟨p, hp, hpid⟩ := (mem_wantedDecisionIds nodes m0.id).mp hm0w
          have hnone := lookupById_eq_none _ _ heq
          rcases hfind : nodes.find?
              (fun x => x.id = generateDecisionNodeId p.1.id p.2.name) with _ | ex
          · exact absurd hpid (by
              have h := List.find?_eq_none.mp hfind m0 hm0n
              simpa using h)
          · have hexn := List.mem_of_find?_eq_some hfind
            have hexid : ex.id = generateDecisionNodeId p.1.id p.2.name := by
              have h := List.find?_some hfind
              simpa using h
            have hexm0 : ex = m0 := hinj ex hexn m0 hm0n (by rw [hexid, ← hpid])
            by_cases hch : decisionDataChanged ex.data
                (getDecisionNodeData p.1.id p.1.position p.2).data = true
            · exfalso
              have hmemu := decisionNodesToUpdate_intro nodes p hp ex hfind hch
              exact hnone _ hmemu (by rw [← hpid])
            · simp only [decisionDataChanged, decide_eq_true_eq, not_or, ne_eq,
                not_not] at hch
              refine ⟨p, hp, ?_, ?_, ?_⟩
              · rw [← htr]
                exact hpid
              · rw [← htr, ← hexm0]
                exact hch.2.2.2.1
              · rw [← htr, ← hexm0]
                exact hch.2.2.2.2
      · rename_i hnd
        exact absurd (by rw [htr]; exact hmdec) hnd
    · obtain ⟨p, hp, hfind, hcdef⟩ := decisionNodesToCreate_mem nodes m hcreate
      subst hcdef
      exact ⟨p, hp, rfl, rfl, rfl⟩
  · rw [hco]
    intro p hp
    have hexists : ∃ m, m ∈ reconcileCore nodes ∧ m.type = NodeType.decision ∧
        m.id = generateDecisionNodeId p.1.id p.2.name := by
      rcases hfind : nodes.find?
          (fun x => x.id = generateDecisionNodeId p.1.id p.2.name) with _ | ex
      · have hc := decisionNodesToCreate_intro nodes p hp hfind
        obtain ⟨m, hm, hmid, hor⟩ :=
          appendFreshNodes_covers (decisionNodesToCreate nodes)
            (reconcileMapped nodes) _ hc
        refine ⟨m, hm, ?_, hmid⟩
        rcases hor with hacc | hcs
        · unfold reconcileMapped at hacc
          rw [List.mem_map] at hacc
          obtain ⟨m0, hmf, htr⟩ := hacc
          unfold reconcileFiltered at hmf
          have hm0n : m0 ∈ nodes := (List.mem_filter.mp hmf).1
          have hm0id : m0.id = generateDecisionNodeId p.1.id p.2.name := by
            rw [← reconcileTransform_id nodes m0, htr]
            exact hmid
          have hm0dec : m0.type = NodeType.decision :=
            hsynth m0 hm0n (hm0id.symm ▸ parse_generate_isSome p.1.id p.2.name)
          rw [← htr, (reconcileTransform_keeps nodes hids m0 hm0n).1]
          exact hm0dec
        · exact decisionNodesToCreate_type nodes m hcs
      · have hexn := List.mem_of_find?_eq_some hfind
        have hexid : ex.id = generateDecisionNodeId p.1.id p.2.name := by
          have h := List.find?_some hfind
          simpa using h
        have hexdec : ex.type = NodeType.decision :=
          hsynth ex hexn (hexid.symm ▸ parse_generate_isSome p.1.id p.2.name)
        have hexf : ex ∈ reconcileFiltered nodes := by
          unfold reconcileFiltered
          rw [List.mem_filter]
          refine ⟨hexn, ?_⟩
          simp only [decide_eq_true_eq]
          intro _
          rw [hexid]
          exact (mem_wantedDecisionIds nodes _).mpr ⟨p, hp, rfl⟩
        have hmm : reconcileTransform nodes ex ∈ reconcileMapped nodes :=
          List.mem_map_of_mem _ hexf
        refine ⟨reconcileTransform nodes ex,
          appendFreshNodes_subset _ _ _ hmm, ?_, ?_⟩
        · rw [(reconcileTransform_keeps nodes hids ex hexn).1]
          exact hexdec
        · rw [reconcileTransform_id nodes ex]
          exact hexid
    obtain ⟨m, hm, hmdec, hmid⟩ := hexists
    refine ⟨m, ⟨hm, hmdec, hmid⟩, ?_⟩
    rintro y ⟨hy, hydec, hyid⟩
    exact houtinj y hy m hm (by rw [hyid, hmid])

/-- Witness for C4 at a concrete canvas: one pair awaiting its decision
node, one orphan awaiting removal. -/
theorem c4_decision_synthesis_exact_witness :
    ((((reconcileDecisionNodes c4Nodes).filter fun n =>
        n.type ≠ NodeType.decision) =
      c4Nodes.filter fun n => n.type ≠ NodeType.decision) ∧
    (∀ m ∈ reconcileDecisionNodes c4Nodes, m.type = NodeType.decision →
      ∃ p ∈ decisionPairs c4Nodes,
        m.id = generateDecisionNodeId p.1.id p.2.name ∧
        m.data.sourceNodeId = some p.1.id ∧
        m.data.functionName = some p.2.name) ∧
    (∀ p ∈ decisionPairs c4Nodes,
      ∃! m, m ∈ reconcileDecisionNodes c4Nodes ∧ m.type = NodeType.decision ∧
        m.id = generateDecisionNodeId p.1.id p.2.name)) :=
  c4_decision_synthesis_exact c4Nodes (by decide) (by decide)

end VocalisFlows
